import Mathlib

/-!
Verification development for the Flow_Assistant repository.

Python strings are embedded as `List Char` (`PyStr`); machine integers are
unbounded in Python, so they are embedded as `Int`/`Nat`.  Stateful code is
embedded as explicit state passing; fallible code returns `Option`/`Except`.
External collaborators (SQLite tables, the FAISS vector store, the OpenAI
client) are embedded as explicit data parameters (a table is a list of rows,
the vector search is a function argument), while all logic of the repository
itself is translated from its source.
-/

/-! ### Python string primitives -/

/-- A Python `str`, embedded as a list of characters. -/
abbrev PyStr := List Char

/-- The characters Python's `str.strip()` / `\s` treat as whitespace
(ASCII fragment). -/
def pyIsSpace (c : Char) : Bool :=
  c == ' ' || c == '\t' || c == '\n' || c == '\r' || c == '\x0b' || c == '\x0c'

/-- Python `str.strip()`. -/
def pyStrip (s : PyStr) : PyStr :=
  ((s.dropWhile pyIsSpace).reverse.dropWhile pyIsSpace).reverse

/-- Python `str.lower()` (ASCII fragment). -/
def pyLower (s : PyStr) : PyStr := s.map Char.toLower

/-- Python `str.lower()` on a Lean string literal. -/
def pyLowerStr (s : String) : String := String.mk (pyLower s.data)

/-- Python `needle in hay` for strings: contiguous-substring containment. -/
def isSubstring (needle : PyStr) : PyStr → Bool
  | [] => needle.isEmpty
  | c :: cs => needle.isPrefixOf (c :: cs) || isSubstring needle cs

/-- Substring containment lifted to Lean string literals. -/
def containsSub (hay needle : String) : Bool := isSubstring needle.data hay.data

/-- Python `str.startswith`. -/
def pyStartsWith (pre s : PyStr) : Bool := pre.isPrefixOf s

/-- Python `str.endswith` for a single-character suffix. -/
def pyEndsWith (c : Char) (s : PyStr) : Bool := s.reverse.head? == some c

/-! ### Stable insertion sort

Python's `sorted` is a stable sort; this insertion sort is stable for the
`le` predicates used below (earlier elements stay first on ties, because
`le a b = true` on equal keys). -/

def insertS (le : α → α → Bool) (a : α) : List α → List α
  | [] => [a]
  | b :: l => if le a b then a :: b :: l else b :: insertS le a l

def sortS (le : α → α → Bool) : List α → List α
  | [] => []
  | a :: l => insertS le a (sortS le l)

/-! ### The query planner (src/src/planner.py)

`QueryPlanner` keeps an `OrderedDict` plan cache; we embed it as an
association list ordered from least-recently-used (front) to
most-recently-used (back).  `deepcopy` of an immutable value is the
identity, so `_clone_plan` vanishes in the embedding. -/

/-- The JSON plan dictionaries produced by `QueryPlanner`
(`_create_simple_lookup_plan`, `_create_detail_lookup_plan`, the LLM plan
and `_create_fallback_plan`).  Keys absent from the fallback plan are
embedded as `Option` fields. -/
structure Plan where
  intent : PyStr
  query_type : String
  action_plan : List String
  recommended_tools : List String
  search_queries : List PyStr
  max_tool_calls : Option Nat
  stopping_condition : Option String
  fallback_strategy : Option String
  context : String
deriving DecidableEq, Repr

/-- `QueryPlanner.SIMPLE_LOOKUP_KEYWORDS`. -/
def SIMPLE_LOOKUP_KEYWORDS : List PyStr :=
  ["available".data, "exist".data, "exists".data, "support".data,
   "supported".data, "have".data, "integration".data, "piece".data,
   "trigger".data, "action".data, "connector".data]

/-- `QueryPlanner.SIMPLE_LOOKUP_VERBS`. -/
def SIMPLE_LOOKUP_VERBS : List PyStr :=
  ["is".data, "does".data, "do".data, "can".data, "are".data, "was".data]

/-- `QueryPlanner.DETAIL_KEYWORDS`. -/
def DETAIL_KEYWORDS : List PyStr :=
  ["input".data, "field".data, "property".data, "parameter".data,
   "configuration".data, "configure".data, "setup".data, "set up".data,
   "mapping".data, "settings".data]

/-- `QueryPlanner.ACTION_TERMS`. -/
def ACTION_TERMS : List PyStr :=
  ["action".data, "trigger".data, "step".data, "task".data, "piece".data]

def MAX_SIMPLE_LOOKUP_LENGTH : Nat := 140
def MAX_DETAIL_LOOKUP_LENGTH : Nat := 260
def CACHE_DEFAULT_SIZE : Nat := 64

/-- `QueryPlanner._looks_like_simple_lookup` (the argument is the lowered
query). -/
def looksLikeSimpleLookup (ql : PyStr) : Bool :=
  if MAX_SIMPLE_LOOKUP_LENGTH < ql.length then false
  else if SIMPLE_LOOKUP_KEYWORDS.any (fun kw => isSubstring kw ql) then true
  else if pyEndsWith '?' ql && (ql.takeWhile (· ≠ '?')).count ' ' ≤ 8 then true
  else SIMPLE_LOOKUP_VERBS.any (fun v => pyStartsWith (v ++ [' ']) ql)

/-- `QueryPlanner._looks_like_detail_lookup` (the argument is the lowered
query). -/
def looksLikeDetailLookup (ql : PyStr) : Bool :=
  if MAX_DETAIL_LOOKUP_LENGTH < ql.length then false
  else if !(DETAIL_KEYWORDS.any (fun kw => isSubstring kw ql)) then false
  else ACTION_TERMS.any (fun t => isSubstring t ql)

/-- `QueryPlanner._create_simple_lookup_plan`.  (`user_query` is already
stripped by the caller, and `.strip()` is applied again as in the source.) -/
def createSimpleLookupPlan (user_query : PyStr) : Plan :=
  let normalized := pyStrip user_query
  { intent := "Verify if \x27".data ++ normalized ++ "\x27 is available in ActivePieces".data
    query_type := "simple_check"
    action_plan :=
      ["Step 1: Call check_activepieces once using the exact query. SUCCESS = piece/action/trigger details returned. MAX ATTEMPTS = 1",
       "Step 2: If a result is found, summarize the key info (name, description, count of actions/triggers) and STOP immediately after responding.",
       "Step 3: If nothing is found, inform the user it\x27s unavailable and suggest using HTTP request/webhook as alternatives."]
    recommended_tools := ["check_activepieces"]
    search_queries := [normalized]
    max_tool_calls := some 1
    stopping_condition := some "After a single check_activepieces call, respond with the findings or state that it is unavailable."
    fallback_strategy := some "If the database lookup fails, explain the issue and suggest manually checking the ActivePieces UI."
    context := "Auto-generated fast path plan (no LLM planning call)." }

/-- `QueryPlanner._create_detail_lookup_plan`. -/
def createDetailLookupPlan (user_query : PyStr) : Plan :=
  let normalized := pyStrip user_query
  { intent := "Gather configuration details for \x27".data ++ normalized ++ "\x27".data
    query_type := "configuration"
    action_plan :=
      ["Step 1: Use search_activepieces_docs once with the query. SUCCESS = list all input properties with types and requirements. MAX ATTEMPTS = 1",
       "Step 2: Summarize required/optional fields, types, and notable defaults. STOP immediately after summarizing.",
       "Step 3: If details remain unclear, note the gaps and recommend checking the ActivePieces UI."]
    recommended_tools := ["search_activepieces_docs"]
    search_queries := [normalized]
    max_tool_calls := some 1
    stopping_condition := some "After one documentation search call, respond with the gathered details (or note missing info)."
    fallback_strategy := some "If doc search fails, provide general guidance using known best practices and suggest checking the UI."
    context := "Auto-generated fast path plan for configuration-style queries." }

/-- `QueryPlanner._create_fallback_plan`. -/
def createFallbackPlan (user_query : PyStr) : Plan :=
  { intent := "Process user query".data
    query_type := "general"
    action_plan :=
      ["Analyze the user query",
       "Use appropriate tools to find information",
       "Provide a comprehensive response"]
    recommended_tools := ["check_activepieces", "search_activepieces_docs"]
    search_queries := [user_query]
    max_tool_calls := none
    stopping_condition := none
    fallback_strategy := none
    context := "Fallback plan - process query normally" }

/-- `QueryPlanner._build_fast_plan`. -/
def buildFastPlan (user_query : PyStr) : Option Plan :=
  let normalized := pyStrip user_query
  if normalized = [] then none
  else
    let lowered := pyLower normalized
    if looksLikeSimpleLookup lowered then some (createSimpleLookupPlan normalized)
    else if looksLikeDetailLookup lowered then some (createDetailLookupPlan normalized)
    else none

/-- The planner's `OrderedDict` plan cache: front = least recently used,
back = most recently used. -/
abbrev PlanCache := List (PyStr × Plan)

/-- `QueryPlanner._get_cached_plan`: on a hit the entry is moved to the
most-recently-used end (`move_to_end`). -/
def lruGet (cache : PlanCache) (key : PyStr) : Option Plan × PlanCache :=
  match (cache.find? (fun e => e.1 == key)).map (·.2) with
  | none => (none, cache)
  | some p => (some p, cache.filter (fun e => !(e.1 == key)) ++ [(key, p)])

/-- `QueryPlanner._store_plan`: insert/overwrite the key at the
most-recently-used end, then pop the least-recently-used entry if the
cache exceeds its configured maximum size. -/
def lruStore (maxsize : Nat) (cache : PlanCache) (key : PyStr) (p : Plan) : PlanCache :=
  if maxsize < (cache.filter (fun e => !(e.1 == key)) ++ [(key, p)]).length then
    (cache.filter (fun e => !(e.1 == key)) ++ [(key, p)]).tail
  else cache.filter (fun e => !(e.1 == key)) ++ [(key, p)]

/-- `QueryPlanner.analyze_query`.  The OpenAI planning call is an external
collaborator, embedded as the function `llm` (`none` embeds both a JSON
parse failure and an API error, which the source handles identically by
storing the fallback plan).  The returned `Bool` records whether the LLM
was called. -/
def analyzeQuery (model : String) (llm : PyStr → Option Plan) (maxsize : Nat)
    (cache : PlanCache) (user_query : PyStr) : Plan × PlanCache × Bool :=
  let normalized := pyStrip user_query
  if normalized = [] then (createFallbackPlan user_query, cache, false)
  else
    let cacheKey := model.data ++ ':' :: pyLower normalized
    match lruGet cache cacheKey with
    | (some cached, cache1) => (cached, cache1, false)
    | (none, cache1) =>
      match buildFastPlan normalized with
      | some fastPlan => (fastPlan, lruStore maxsize cache1 cacheKey fastPlan, false)
      | none =>
        match llm normalized with
        | some plan => (plan, lruStore maxsize cache1 cacheKey plan, true)
        | none =>
          (createFallbackPlan normalized,
           lruStore maxsize cache1 cacheKey (createFallbackPlan normalized), true)

/-- The property every cache entry maintains: a key decoding as
`model:<lowered query>` for a lowered query matched by a fast heuristic
stores the corresponding fixed one-tool plan data. -/
def PlanEntryOk (model : String) (key : PyStr) (p : Plan) : Prop :=
  ∀ ql : PyStr, key = model.data ++ ':' :: ql →
    (looksLikeSimpleLookup ql = true →
      p.recommended_tools = ["check_activepieces"] ∧ p.max_tool_calls = some 1) ∧
    (looksLikeSimpleLookup ql = false → looksLikeDetailLookup ql = true →
      p.recommended_tools = ["search_activepieces_docs"] ∧ p.max_tool_calls = some 1)

def PlannerCacheInv (model : String) (cache : PlanCache) : Prop :=
  ∀ e ∈ cache, PlanEntryOk model e.1 e.2

/-- A sequence of operations against the planner's plan cache
(`_get_cached_plan` / `_store_plan`). -/
inductive CacheOp where
  | get (key : PyStr)
  | store (key : PyStr) (p : Plan)
deriving DecidableEq

/-- Run a sequence of cache operations. -/
def runCacheOps (maxsize : Nat) (ops : List CacheOp) (cache : PlanCache) : PlanCache :=
  ops.foldl
    (fun c op =>
      match op with
      | .get k => (lruGet c k).2
      | .store k p => lruStore maxsize c k p)
    cache

/-! ### The knowledge lookup `find_piece_by_name` (src/tools.py)

The `pieces`, `actions` and `triggers` SQL tables are embedded as lists of
rows; a `SELECT ... WHERE cond LIMIT 1` is the first row satisfying the
condition, and `LIKE` patterns of the shape `q%` / `%q%` over lowered
columns are prefix / substring tests (the input is user free text, not a
`LIKE` pattern). -/

structure PieceRow where
  id : Nat
  name : String
  display_name : String
  description : Option String
  categories : List String
  auth_type : Option String
  version : String
deriving DecidableEq, Repr

structure ActionRow where
  piece_id : Nat
  display_name : String
  description : Option String
  requires_auth : Bool
deriving DecidableEq, Repr

structure TriggerRow where
  piece_id : Nat
  display_name : String
  description : Option String
  trigger_type : Option String
  requires_auth : Bool
deriving DecidableEq, Repr

structure PiecesDb where
  pieces : List PieceRow
  actions : List ActionRow
  triggers : List TriggerRow

/-- An action or trigger entry nested in the dictionary returned by
`find_piece_by_name`. -/
structure NestedEntry where
  displayName : String
  description : String
deriving DecidableEq, Repr

/-- The dictionary returned by `find_piece_by_name`. -/
structure PieceRecord where
  displayName : String
  name : String
  slug : String
  description : String
  categories : List String
  auth_type : Option String
  version : String
  actions : List NestedEntry
  triggers : List NestedEntry
deriving DecidableEq, Repr

/-- The exact-match `WHERE` clause of the first query:
`LOWER(display_name) = q OR LOWER(name) = q`. -/
def pieceExactMatch (q : PyStr) (r : PieceRow) : Bool :=
  (pyLower r.display_name.data == q) || (pyLower r.name.data == q)

/-- The fallback `WHERE` clause of the second query:
`LOWER(display_name) LIKE q% OR LOWER(name) LIKE q% OR
 LOWER(display_name) LIKE %q% OR LOWER(name) LIKE %q%`. -/
def piecePartialMatch (q : PyStr) (r : PieceRow) : Bool :=
  pyStartsWith q (pyLower r.display_name.data)
    || pyStartsWith q (pyLower r.name.data)
    || isSubstring q (pyLower r.display_name.data)
    || isSubstring q (pyLower r.name.data)

/-- `ORDER BY display_name` over the actions/triggers of a piece. -/
def byDisplayName {α : Type} (dn : α → String) (rows : List α) : List α :=
  sortS (fun a b => dn a ≤ dn b) rows

/-- The result dictionary built for a matched piece row: its own columns
plus the piece's nested actions and triggers (each fetched by `piece_id`,
`ORDER BY display_name`). -/
def pieceRecordOf (db : PiecesDb) (r : PieceRow) : PieceRecord :=
  { displayName := r.display_name
    name := r.name
    slug := r.name
    description := r.description.getD ""
    categories := r.categories
    auth_type := r.auth_type
    version := r.version
    actions :=
      (byDisplayName (·.display_name) (db.actions.filter (fun a => a.piece_id == r.id))).map
        (fun a => ⟨a.display_name, a.description.getD ""⟩)
    triggers :=
      (byDisplayName (·.display_name) (db.triggers.filter (fun t => t.piece_id == r.id))).map
        (fun t => ⟨t.display_name, t.description.getD ""⟩) }

/-- `find_piece_by_name` (src/tools.py lines 71-142): exact match first,
then the `LIKE` fallback, then `None`; the returned record carries the
piece's nested actions and triggers. -/
def findPieceByName (db : PiecesDb) (name : PyStr) : Option PieceRecord :=
  let name_lower := pyLower (pyStrip name)
  let piece :=
    match db.pieces.find? (pieceExactMatch name_lower) with
    | some r => some r
    | none => db.pieces.find? (piecePartialMatch name_lower)
  match piece with
  | none => none
  | some r => some (pieceRecordOf db r)

/-! ### Search ranking (src/flow-assistant-tools/search_pieces.py)

Pieces here are the JSON records returned by the ActivePieces API
(`piece['name']` is accessed directly, every other field through `.get`
with a default); `normalize_collection(...).values()` yields the piece's
actions/triggers in order. -/

structure CapEntry where
  displayName : String
  description : String
deriving DecidableEq, Repr

structure ApiPiece where
  name : String
  displayName : String
  description : String
  categories : List String
  actions : List CapEntry
  triggers : List CapEntry
deriving DecidableEq, Repr

/-- `calculate_score` inside `rank_search_results`: fixed bonuses per
case-insensitive substring hit of the query. -/
def calculateScore (query_lower : PyStr) (piece : ApiPiece) : Nat :=
  let score := 0
  let score := score + (if isSubstring query_lower (pyLower piece.name.data) then 100 else 0)
  let score := score + (if isSubstring query_lower (pyLower piece.displayName.data) then 80 else 0)
  let score := score + (if isSubstring query_lower (pyLower piece.description.data) then 40 else 0)
  let score := piece.categories.foldl
    (fun s cat => s + (if isSubstring query_lower (pyLower cat.data) then 30 else 0)) score
  let score := piece.actions.foldl
    (fun s a =>
      s + (if isSubstring query_lower (pyLower a.displayName.data) then 20 else 0)
        + (if isSubstring query_lower (pyLower a.description.data) then 10 else 0)) score
  let score := piece.triggers.foldl
    (fun s t =>
      s + (if isSubstring query_lower (pyLower t.displayName.data) then 20 else 0)
        + (if isSubstring query_lower (pyLower t.description.data) then 10 else 0)) score
  score

/-- `rank_search_results`: score every piece, then
`sorted(..., key=score, reverse=True)` (a stable descending sort). -/
def rankSearchResults (pieces : List ApiPiece) (query : PyStr) : List ApiPiece :=
  let query_lower := pyLower query
  sortS (fun a b => calculateScore query_lower b ≤ calculateScore query_lower a) pieces

/-- The score the claim describes, following the spec text: one bonus per
case-insensitive substring hit of the query in the name, display name,
description and category fields ONLY.  Kept separate from
`calculateScore` (which is translated from the source) so the two can be
compared. -/
def claimedScore (query_lower : PyStr) (piece : ApiPiece) : Nat :=
  (if isSubstring query_lower (pyLower piece.name.data) then 100 else 0)
    + (if isSubstring query_lower (pyLower piece.displayName.data) then 80 else 0)
    + (if isSubstring query_lower (pyLower piece.description.data) then 40 else 0)
    + 30 * (piece.categories.countP (fun cat => isSubstring query_lower (pyLower cat.data)))

/-! ### The streaming status protocol (src/src/main.py)

Every dictionary placed on the `status_queue` is embedded as a `Frame`;
`Frame.ftype` is the value of its `"type"` key.  `time.time()` readings and
computed durations are embedded as `ℚ` parameters; the fractional reasoning
steps (`action_counter + 0.5`) are exact halves, so `ℚ` is faithful. -/

inductive Frame where
  | status (message : String) (tool : Option String)
  | actionLog (step : ℚ) (icon action : String) (detail : Option String)
      (tool : Option String) (stat : String) (duration : Option ℚ) (start_time : Option ℚ)
  | actionLogUpdate (step : ℚ) (duration : ℚ) (stat : String)
  | chunkStart (total_chunks : Nat)
  | chunk (data : PyStr) (index : Nat) (total : Nat)
  | chunkEnd
  | done (reply : Option PyStr)
  | error (message : String)
  | cancelled (message : String)
  | streamingUpdate (step : ℚ) (content : String) (total_chars total_words : Nat)
      (elapsed : ℚ) (stat : String)
deriving DecidableEq

/-- The value of the `"type"` key of a queued dictionary. -/
def Frame.ftype : Frame → String
  | .status .. => "status"
  | .actionLog .. => "action_log"
  | .actionLogUpdate .. => "action_log_update"
  | .chunkStart .. => "chunk_start"
  | .chunk .. => "chunk"
  | .chunkEnd => "chunk_end"
  | .done .. => "done"
  | .error .. => "error"
  | .cancelled .. => "cancelled"
  | .streamingUpdate .. => "streaming_update"

/-- The frame types on which the `event_generator` loop terminates. -/
def isTerminalFrame (f : Frame) : Bool :=
  f.ftype == "done" || f.ftype == "error" || f.ftype == "cancelled"

/-- The SSE stream: `event_generator` yields queued frames in order and
breaks after the first frame of type `done`, `error` or `cancelled`. -/
def streamDeliver : List Frame → List Frame
  | [] => []
  | f :: fs => if isTerminalFrame f then [f] else f :: streamDeliver fs

/-- `StatusCallbackHandler` mutable state (`action_counter`; the
`action_start_times` map is embedded by passing each duration explicitly
where it is read back). -/
structure HandlerState where
  counter : Nat
deriving DecidableEq

/-- `StatusCallbackHandler._format_tool_input` (string input branch):
truncate inputs longer than 100 characters. -/
def formatToolInput (s : String) : Option String :=
  some (if 100 < s.data.length then String.mk (s.data.take 100) ++ "..." else s)

/-- The `action_messages` table of `on_agent_action`. -/
def actionMessageFor (tool : String) (toolInput : String) : String × String × Option String :=
  if tool == "check_activepieces_tool" then
    ("🔍", "Checking ActivePieces database", formatToolInput toolInput)
  else if tool == "search_activepieces_docs_tool" then
    ("📚", "Searching knowledge base", formatToolInput toolInput)
  else if tool == "web_search_tool" then
    ("🌐", "Searching the web", formatToolInput toolInput)
  else if tool == "get_code_generation_guidelines_tool" then
    ("📝", "Getting code generation guidelines", none)
  else
    ("⚙️", "Using " ++ tool, none)

/-- `StatusCallbackHandler.on_agent_action`: check cancellation first
(raising `CancellationException`, embedded as `Except.error ()`), then
emit the detailed action log and the legacy status frame. -/
def onAgentAction (cancelled : Bool) (st : HandlerState) (tool toolInput : String)
    (now : ℚ) : Except Unit (List Frame × HandlerState) :=
  if cancelled then .error ()
  else
    let c := st.counter + 1
    let info := actionMessageFor tool toolInput
    .ok ([Frame.actionLog (c : ℚ) info.1 info.2.1 info.2.2 (some tool) "started" none (some now),
          Frame.status (info.1 ++ " " ++ info.2.1 ++ "...") (some tool)],
         ⟨c⟩)

/-- `StatusCallbackHandler.on_tool_start`: cancellation check only (the
handler just records `tool_start_time`). -/
def onToolStart (cancelled : Bool) : Except Unit (List Frame) :=
  if cancelled then .error () else .ok []

/-- `StatusCallbackHandler.on_tool_end`: cancellation check, an
`action_log_update` with the measured duration when a start time was
recorded for the current counter, then the thinking status frame. -/
def onToolEnd (cancelled : Bool) (st : HandlerState) (duration : Option ℚ) :
    Except Unit (List Frame) :=
  if cancelled then .error ()
  else
    .ok ((match duration with
          | some d => [Frame.actionLogUpdate (st.counter : ℚ) d "completed"]
          | none => [])
         ++ [Frame.status "💭 Thinking..." none])

/-- `StatusCallbackHandler.on_llm_start`: cancellation check, then a
reasoning log at step `action_counter + 0.5`. -/
def onLlmStart (cancelled : Bool) (st : HandlerState) (now : ℚ) :
    Except Unit (List Frame) :=
  if cancelled then .error ()
  else
    .ok [Frame.actionLog ((st.counter : ℚ) + 1/2) "🤔" "Analyzing and reasoning"
          none none "thinking" none (some now)]

/-- `StatusCallbackHandler.on_llm_end` (no cancellation check): an update
for the reasoning step when its start time was recorded. -/
def onLlmEnd (st : HandlerState) (duration : Option ℚ) : List Frame :=
  match duration with
  | some d => [Frame.actionLogUpdate ((st.counter : ℚ) + 1/2) d "completed"]
  | none => []

/-- `StatusCallbackHandler.on_agent_finish`: emits the finalizing frames
unless the cancellation event is set. -/
def onAgentFinish (cancelled : Bool) (st : HandlerState) (now : ℚ) : List Frame :=
  if cancelled then []
  else
    [Frame.actionLog ((st.counter : ℚ) + 1) "✨" "Finalizing response" none none
       "finalizing" none (some now),
     Frame.status "✨ Finalizing response..." none]

def CHUNK_THRESHOLD : Nat := 6000
def CHUNK_SIZE : Nat := 3000

/-- `event_generator.enqueue_reply`: a `None` reply yields a bare done
frame; a reply longer than `CHUNK_THRESHOLD` is chunked into consecutive
`CHUNK_SIZE`-character slices framed by `chunk_start`/`chunk_end` and a
bare done frame; otherwise the reply rides in the done frame itself. -/
def enqueueReply : Option PyStr → List Frame
  | none => [Frame.done none]
  | some reply =>
    if CHUNK_THRESHOLD < reply.length then
      let total := (reply.length + CHUNK_SIZE - 1) / CHUNK_SIZE
      Frame.chunkStart total ::
        ((List.range total).map
          (fun idx => Frame.chunk ((reply.drop (idx * CHUNK_SIZE)).take CHUNK_SIZE) idx total))
        ++ [Frame.chunkEnd, Frame.done none]
    else
      [Frame.done (some reply)]

/-- The outcome of `agent.invoke` as observed by `run_agent`'s
`try`/`except`: a reply, a propagated `CancellationException`, or another
exception with a message. -/
inductive InvokeOutcome where
  | success (reply : PyStr)
  | cancelledExc
  | otherExc (msg : String)
deriving DecidableEq

/-- The frames `run_agent` queues before invoking the agent
(non-flow-builder branch). -/
def runAgentStartFrames (userMessage : String) : List Frame :=
  [Frame.actionLog 0 "🚀" "Starting agent" none none "started" none none,
   Frame.status "🚀 Starting..." none,
   Frame.actionLog (1/2) "🤖" "Processing your query"
     (some (if 80 < userMessage.data.length
            then String.mk (userMessage.data.take 80) ++ "..." else userMessage))
     none "processing" none none,
   Frame.status "🤖 Processing query..." none]

/-- `event_generator.run_agent` (non-flow-builder branch): the startup
frames, the frames emitted through the callback handler during
`agent.invoke` (`during`), then either the chunked reply, or the
`cancelled`/`error` frame from the `except` clauses.  `eventSet` is the
cancellation event's state when a generic exception is handled. -/
def runAgentFrames (userMessage : String) (during : List Frame)
    (outcome : InvokeOutcome) (eventSet : Bool) : List Frame :=
  runAgentStartFrames userMessage ++ during ++
    (match outcome with
     | .success reply => enqueueReply (some reply)
     | .cancelledExc => [Frame.cancelled "Request cancelled"]
     | .otherExc msg =>
       if isSubstring "cancel".data (pyLower msg.data) || eventSet then
         [Frame.cancelled "Request cancelled"]
       else [Frame.error msg])

/-- `FlowBuilder._emit_action_log` (src/src/flow_builder.py), forwarded to
the status queue by `flow_status_callback`. -/
def flowEmitActionLog (counter : Nat) (icon action : String) (detail : Option String)
    (stat : String) (duration : Option ℚ) (now : ℚ) : Frame :=
  Frame.actionLog ((counter + 1 : Nat) : ℚ) icon action detail none stat duration
    (if stat == "started" then some now else none)

/-- The `streaming_update` dictionaries `FlowBuilder` forwards to the
status queue while streaming guide generation. -/
def flowStreamingUpdate (counter : Nat) (newText : String) (chars words : Nat)
    (elapsed : ℚ) : Frame :=
  Frame.streamingUpdate ((counter : Nat) : ℚ) newText chars words elapsed "streaming"

/-! ### The session store (src/src/memory.py)

The sessions directory and the index file are embedded as association
lists from session id to contents; `datetime.now().isoformat()` readings
are passed as an explicit `now` timestamp (the handful of readings inside
one call are indistinguishable at the claim's granularity). -/

structure SessionMsg where
  role : String
  message : String
  timestamp : String
deriving DecidableEq, Repr

structure SessionData where
  session_id : String
  created_at : String
  updated_at : String
  messages : List SessionMsg
deriving DecidableEq, Repr

structure IndexMeta where
  created_at : String
  updated_at : String
  message_count : Nat
deriving DecidableEq, Repr

/-- The on-disk state: one JSON file per session id, plus the index file. -/
structure SessionStore where
  files : List (String × SessionData)
  index : List (String × IndexMeta)
deriving DecidableEq, Repr

/-- Look up an association list (a JSON object / directory listing). -/
def alistGet {β : Type} : List (String × β) → String → Option β
  | [], _ => none
  | e :: t, k => if e.1 == k then some e.2 else alistGet t k

/-- Overwrite-or-append into an association list (writing a file /
assigning a JSON key): an existing key keeps its position, a new key is
appended at the end, as in a Python `dict`. -/
def alistSet {β : Type} : List (String × β) → String → β → List (String × β)
  | [], k, v => [(k, v)]
  | e :: t, k, v => if e.1 == k then (k, v) :: t else e :: alistSet t k v

/-- Remove a key from an association list (deleting a file / `del`). -/
def alistDel {β : Type} : List (String × β) → String → List (String × β)
  | [], _ => []
  | e :: t, k => if e.1 == k then alistDel t k else e :: alistDel t k

/-- `create_session`: write a fresh session file and its index entry. -/
def createSession (st : SessionStore) (sid now : String) : SessionData × SessionStore :=
  let sdata : SessionData :=
    { session_id := sid, created_at := now, updated_at := now, messages := [] }
  (sdata,
   { files := alistSet st.files sid sdata
     index := alistSet st.index sid
       { created_at := now, updated_at := now, message_count := 0 } })

/-- `load_session`. -/
def loadSession (st : SessionStore) (sid : String) : Option SessionData :=
  alistGet st.files sid

/-- `save_session`: refresh `updated_at`, overwrite the session file, and
rewrite the index entry with the current message count. -/
def saveSession (st : SessionStore) (sdata : SessionData) (now : String) : SessionStore :=
  let sdata1 := { sdata with updated_at := now }
  { files := alistSet st.files sdata1.session_id sdata1
    index := alistSet st.index sdata1.session_id
      { created_at := sdata1.created_at
        updated_at := sdata1.updated_at
        message_count := sdata1.messages.length } }

/-- `log_interaction` with a session id: load or create the session,
append the user and assistant messages, and save. -/
def logInteraction (st : SessionStore) (sid userMessage assistantMessage now : String) :
    SessionStore :=
  let (sdata, st1) :=
    match loadSession st sid with
    | some sdata => (sdata, st)
    | none => createSession st sid now
  let sdata1 :=
    { sdata with messages := sdata.messages
        ++ [{ role := "user", message := userMessage, timestamp := now },
            { role := "assistant", message := assistantMessage, timestamp := now }] }
  saveSession st1 sdata1 now

/-- `clear_session`: when the session file exists, remove it and its
index entry. -/
def clearSession (st : SessionStore) (sid : String) : SessionStore :=
  if (alistGet st.files sid).isSome then
    { files := alistDel st.files sid, index := alistDel st.index sid }
  else st

/-- The session directory and the index file agree on which sessions
exist. -/
def StoreConsistent (st : SessionStore) : Prop :=
  ∀ sid : String, (alistGet st.files sid).isSome ↔ (alistGet st.index sid).isSome

/-- Every session file records the session id it is stored under (which
`create_session` and `save_session` maintain). -/
def StoreKeyed (st : SessionStore) : Prop :=
  ∀ e ∈ st.files, e.2.session_id = e.1

/-! ### Query normalization and variants (src/src/query_utils.py) -/

/-- Replace every whitespace run by a single space
(`re.sub(r"\s+", " ", text)`); the flag records whether the previous
character was whitespace. -/
def collapseWsAux (prevSpace : Bool) : PyStr → PyStr
  | [] => []
  | c :: cs =>
    if pyIsSpace c then
      if prevSpace then collapseWsAux true cs else ' ' :: collapseWsAux true cs
    else c :: collapseWsAux false cs

/-- `normalize_query`: collapse whitespace, then strip. -/
def normalizeQuery (text : PyStr) : PyStr := pyStrip (collapseWsAux false text)

/-- The `_STOPWORDS` set. -/
def STOPWORDS : List PyStr :=
  ["what".data, "which".data, "who".data, "where".data, "when".data, "why".data,
   "how".data, "does".data, "do".data, "did".data, "is".data, "are".data,
   "was".data, "were".data, "can".data, "could".data, "should".data,
   "would".data, "may".data, "might".data, "will".data, "shall".data,
   "i".data, "me".data, "my".data, "we".data, "you".data, "they".data,
   "he".data, "she".data, "it".data, "this".data, "that".data, "these".data,
   "those".data, "them".data, "to".data, "for".data, "of".data, "and".data,
   "or".data, "the".data, "a".data, "an".data, "in".data, "on".data,
   "with".data, "into".data, "from".data, "about".data, "need".data,
   "show".data, "list".data, "find".data, "get".data, "tell".data,
   "give".data, "using".data, "use".data, "available".data,
   "availability".data, "piece".data, "pieces".data, "integration".data,
   "integrations".data, "action".data, "actions".data, "trigger".data,
   "triggers".data, "connector".data, "connectors".data, "flow".data,
   "flows".data, "activepieces".data]

/-- A `\w` word character (ASCII fragment of `re.findall(r"\b\w+\b", ...)`). -/
def isWordChar (c : Char) : Bool := c.isAlphanum || c == '_'

/-- Tokenizer for `re.findall(r"\b\w+\b", s)`: maximal runs of word
characters (`acc` holds the current run, reversed). -/
def tokenizeAux (acc : PyStr) : PyStr → List PyStr
  | [] => if acc = [] then [] else [acc.reverse]
  | c :: cs =>
    if isWordChar c then tokenizeAux (c :: acc) cs
    else if acc = [] then tokenizeAux [] cs
    else acc.reverse :: tokenizeAux [] cs

def tokenizeWords (s : PyStr) : List PyStr := tokenizeAux [] s

/-- The filtering loop of `_extract_topic_phrase`: keep non-stopword
tokens, stopping once `budget` tokens are collected. -/
def takeTopicTokens (budget : Nat) : List PyStr → List PyStr
  | [] => []
  | t :: ts =>
    if budget = 0 then []
    else if STOPWORDS.contains (pyLower t) then takeTopicTokens budget ts
    else t :: takeTopicTokens (budget - 1) ts

/-- Join tokens with single spaces (`" ".join(filtered)`). -/
def joinSpace : List PyStr → PyStr
  | [] => []
  | [t] => t
  | t :: ts => t ++ ' ' :: joinSpace ts

/-- `_extract_topic_phrase` (max_tokens defaults to 6). -/
def extractTopicPhrase (normalized : PyStr) (maxTokens : Nat := 6) : PyStr :=
  joinSpace (takeTopicTokens maxTokens (tokenizeWords normalized))

/-- The `add_variant` closure of `generate_query_variants`: normalize the
candidate and append it unless empty or already seen (case-insensitively). -/
def addVariant (variants : List PyStr) (candidate : PyStr) : List PyStr :=
  let cleaned := normalizeQuery candidate
  if cleaned = [] then variants
  else if (variants.map pyLower).contains (pyLower cleaned) then variants
  else variants ++ [cleaned]

/-- The final `while len(variants) < min_variants` loop of
`generate_query_variants`.  Each candidate carries a fresh counter suffix,
so at most `min_variants` iterations add a variant and at most one
iteration per pre-existing variant collides; the fuel of 16 passed below
strictly exceeds that bound, so the fuel never runs out. -/
def padVariants (normalized : PyStr) (minVariants : Nat) :
    Nat → Nat → List PyStr → List PyStr
  | 0, _, variants => variants
  | fuel + 1, counter, variants =>
    if minVariants ≤ variants.length then variants
    else
      padVariants normalized minVariants fuel (counter + 1)
        (addVariant variants
          (normalized ++ " ActivePieces reference ".data ++ (Nat.repr counter).data))

/-- `generate_query_variants` (min_variants defaults to 3). -/
def generateQueryVariants (userQuery : PyStr) (minVariants : Nat := 3) : List PyStr :=
  let normalized := normalizeQuery userQuery
  if normalized = [] then []
  else
    let variants := addVariant [] normalized
    let topicPhrase := extractTopicPhrase normalized
    let variants :=
      if topicPhrase ≠ [] then
        addVariant
          (addVariant
            (addVariant variants ("ActivePieces ".data ++ topicPhrase ++ " integrations".data))
            (topicPhrase ++ " ActivePieces pieces".data))
          (topicPhrase ++ " automation in ActivePieces".data)
      else
        addVariant (addVariant variants (normalized ++ " ActivePieces".data))
          ("ActivePieces ".data ++ normalized)
    let fallbacks :=
      [normalized ++ " integrations".data,
       normalized ++ " automation".data,
       normalized ++ " setup ActivePieces".data,
       normalized ++ " use cases".data,
       normalized ++ " documentation ActivePieces".data]
    let variants := fallbacks.foldl
      (fun acc fb => if minVariants ≤ acc.length then acc else addVariant acc fb) variants
    padVariants normalized minVariants 16 1 variants

/-! ### Document retrieval `search_activepieces_docs` (src/src/tools.py)

The FAISS vector store is an external collaborator: each
`similarity_search_with_score(variant, k=per_variant_k)` call is the
function argument `searchFn` (scores are L2 distances; they are embedded
as `Option ℚ`, with `None` for the score-less fallback path, compared
through `skey` where `None` is `float("inf")`). -/

/-- A retrieved document: `metadata.source` and `page_content`. -/
structure RDoc where
  source : String
  content : PyStr
deriving DecidableEq, Repr

/-- The deduplication key `f"{source}|{page_content[:200]}"`. -/
def dedupKey (d : RDoc) : PyStr := d.source.data ++ '|' :: d.content.take 200

/-- An `aggregated` entry `{"doc": ..., "score": ..., "variant": ...}`. -/
structure AggEntry where
  doc : RDoc
  score : Option ℚ
  variant : PyStr
deriving DecidableEq, Repr

/-- The sort key: a missing score counts as `float("inf")`. -/
def skey : Option ℚ → WithTop ℚ
  | none => ⊤
  | some q => (q : WithTop ℚ)

/-- The comparison of sort keys as the sort performs it (`None`, that is
`float("inf")`, is greatest). -/
def scoreLe : Option ℚ → Option ℚ → Bool
  | _, none => true
  | none, some _ => false
  | some x, some y => decide (x ≤ y)

/-- The replacement test of the aggregation loop:
`score is not None and (stored is None or score < stored["score"])`. -/
def replaceCond (newScore stored : Option ℚ) : Bool :=
  match newScore with
  | none => false
  | some s =>
    match stored with
    | none => true
    | some t => decide (s < t)

/-- One step of the aggregation loop over a retrieved `(doc, score)` pair
of a variant. -/
def aggInsert (agg : List (PyStr × AggEntry)) (variant : PyStr)
    (pr : RDoc × Option ℚ) : List (PyStr × AggEntry) :=
  let key := dedupKey pr.1
  match (agg.find? (fun e => e.1 == key)).map (·.2) with
  | none => agg ++ [(key, ⟨pr.1, pr.2, variant⟩)]
  | some stored =>
    if replaceCond pr.2 stored.score then
      agg.map (fun e => if e.1 == key then (e.1, (⟨pr.1, pr.2, variant⟩ : AggEntry)) else e)
    else agg

/-- The nested retrieval loop flattened: the `(variant, (doc, score))`
pairs in processing order. -/
def docSearchPairs (variants : List PyStr) (searchFn : PyStr → List (RDoc × Option ℚ)) :
    List (PyStr × (RDoc × Option ℚ)) :=
  variants.flatMap (fun v => (searchFn v).map (fun pr => (v, pr)))

/-- The full aggregation (`aggregated`, in dict insertion order). -/
def aggregateAll (pairs : List (PyStr × (RDoc × Option ℚ))) : List (PyStr × AggEntry) :=
  pairs.foldl (fun agg p => aggInsert agg p.1 p.2) []

/-- Invariant of the aggregation loop over the processed prefix of
retrieved pairs: keys are distinct and correct, every entry was retrieved
(with its variant), every entry's score is minimal among the retrieved
pairs sharing its key, and every processed key has an entry. -/
def AggInv (processed : List (PyStr × (RDoc × Option ℚ)))
    (agg : List (PyStr × AggEntry)) : Prop :=
  ((agg.map (fun e => e.1)).Nodup) ∧
  (∀ e ∈ agg, e.1 = dedupKey e.2.doc) ∧
  (∀ e ∈ agg, ∃ p ∈ processed, e.2.doc = p.2.1 ∧ e.2.score = p.2.2 ∧ e.2.variant = p.1) ∧
  (∀ e ∈ agg, ∀ p ∈ processed, dedupKey p.2.1 = e.1 → skey e.2.score ≤ skey p.2.2) ∧
  (∀ p ∈ processed, ∃ e ∈ agg, e.1 = dedupKey p.2.1)

/-- `search_activepieces_docs`, up to string formatting: `None` for an
empty normalized query, otherwise the aggregated results sorted by
ascending score (score-less entries last) and truncated to
`max_results`. -/
def searchActivepiecesDocs (query : PyStr) (searchFn : PyStr → List (RDoc × Option ℚ))
    (maxResults : Nat) : Option (List AggEntry) :=
  let normalizedQuery := normalizeQuery query
  if normalizedQuery = [] then none
  else
    let variants := generateQueryVariants normalizedQuery
    let agg := aggregateAll (docSearchPairs variants searchFn)
    some ((sortS (fun a b => scoreLe a.score b.score) (agg.map (·.2))).take maxResults)

/-! ### Limit clamping in the catalog tools (src/src/tools.py)

The `limit` arguments reach the tools as arbitrary Python values; `PyVal`
embeds the cases `int(limit)` distinguishes (floats are immaterial here:
the agent passes JSON integers or strings). -/

inductive PyVal where
  | vint (n : Int)
  | vstr (s : String)
  | vnone
  | vother
deriving DecidableEq

/-- Python `int(x)` for the embedded values: identity on integers, decimal
parse (with optional sign, after stripping) on strings, `TypeError` /
`ValueError` (`none`) otherwise. -/
def pyToInt : PyVal → Option Int
  | .vint n => some n
  | .vstr s =>
    let t := pyStrip s.data
    let (sign, digits) :=
      match t with
      | '-' :: rest => ((-1 : Int), rest)
      | '+' :: rest => ((1 : Int), rest)
      | _ => ((1 : Int), t)
    if digits ≠ [] ∧ digits.all Char.isDigit then
      some (sign * (digits.foldl (fun n c => n * 10 + (c.toNat - '0'.toNat)) (0 : Nat) : Nat))
    else none
  | .vnone => none
  | .vother => none

/-- The clamping pattern `try: v = int(limit) except: v = default` then
`max(1, min(v, cap))`. -/
def clampLimit (default cap : Int) (limit : PyVal) : Int :=
  max 1 (min ((pyToInt limit).getD default) cap)

/-- `search_piece_catalog` limit handling (default 10, cap 50). -/
def searchPieceCatalogLimit (limit : PyVal) : Int := clampLimit 10 50 limit

/-- `find_action_by_name` limit handling (default 50, cap 50). -/
def findActionByNameLimit (limit : PyVal) : Int := clampLimit 50 50 limit

/-- `find_trigger_by_name` limit handling (default 50, cap 50). -/
def findTriggerByNameLimit (limit : PyVal) : Int := clampLimit 50 50 limit

/-- `get_top_pieces_overview` limit handling (default 10, cap 50). -/
def getTopPiecesOverviewLimit (limit : PyVal) : Int := clampLimit 10 50 limit

/-- `list_pieces_by_auth_type` limit handling (default 25, cap 100). -/
def listPiecesByAuthTypeLimit (limit : PyVal) : Int := clampLimit 25 100 limit

/-- A row of the `pieces_with_capabilities` view / catalog queries. -/
structure CatalogRow where
  name : String
  display_name : String
  description : Option String
  auth_type : Option String
  action_count : Nat
  trigger_count : Nat
deriving DecidableEq, Repr

/-- `ActivepiecesDB.search_pieces` under an FTS5 matcher `ftsMatch`
(external); `LIMIT ?` truncates to the clamped limit. -/
def searchPiecesRows (ftsMatch : String → CatalogRow → Bool) (db : List CatalogRow)
    (query : String) (limit : Nat) : List CatalogRow :=
  (db.filter (ftsMatch query)).take limit

/-- The row selection of `search_piece_catalog`: FTS search when a query
is present (auth filter applied afterwards), otherwise all pieces with the
auth filter applied before truncation. -/
def searchPieceCatalogRows (ftsMatch : String → CatalogRow → Bool) (db : List CatalogRow)
    (query authType : String) (limit : PyVal) : List CatalogRow :=
  let limitValue := (searchPieceCatalogLimit limit).toNat
  let searchQuery := pyStrip query.data
  let authFilter := pyLower (pyStrip authType.data)
  let results :=
    if searchQuery ≠ [] then
      searchPiecesRows ftsMatch db (String.mk searchQuery) limitValue
    else
      ((db.filter (fun r =>
          authFilter = [] || (pyLower (r.auth_type.getD "").data == authFilter))).take limitValue)
  if authFilter ≠ [] ∧ searchQuery ≠ [] then
    results.filter (fun r => pyLower (r.auth_type.getD "").data == authFilter)
  else results

/-- The row selection of `find_action_by_name`
(`ActivepiecesDB.search_actions` with the clamped limit). -/
def findActionByNameRows (ftsMatch : String → ActionRow → Bool) (db : List ActionRow)
    (actionName : String) (limit : PyVal) : List ActionRow :=
  (db.filter (ftsMatch (pyLowerStr actionName))).take (findActionByNameLimit limit).toNat

/-- A row of the `triggers JOIN pieces` query in `find_trigger_by_name`. -/
structure TriggerQueryRow where
  piece_display_name : String
  trigger_display_name : String
  trigger_name : String
  description : Option String
deriving DecidableEq, Repr

/-- The row selection of `find_trigger_by_name`: a `LIKE` substring match
over the lowered trigger display name or internal name, ordered by piece
then trigger display name, `LIMIT` the clamped limit. -/
def findTriggerByNameRows (db : List TriggerQueryRow) (triggerName : String)
    (limit : PyVal) : List TriggerQueryRow :=
  let q := pyLower triggerName.data
  ((sortS
      (fun a b =>
        a.piece_display_name < b.piece_display_name
          || (a.piece_display_name == b.piece_display_name
              && a.trigger_display_name ≤ b.trigger_display_name))
      (db.filter (fun r =>
        isSubstring q (pyLower r.trigger_display_name.data)
          || isSubstring q (pyLower r.trigger_name.data)))).take
    (findTriggerByNameLimit limit).toNat)

/-- The row selection of `get_top_pieces_overview`
(`ActivepiecesDB.get_top_pieces` with the clamped limit). -/
def getTopPiecesOverviewRows (db : List CatalogRow) (limit : PyVal) : List CatalogRow :=
  ((sortS (fun a b => b.action_count + b.trigger_count ≤ a.action_count + a.trigger_count)
      (db.filter (fun r => 0 < r.action_count || 0 < r.trigger_count))).take
    (getTopPiecesOverviewLimit limit).toNat)

/-- The row selection of `list_pieces_by_auth_type` with the clamped
limit. -/
def listPiecesByAuthTypeRows (db : List CatalogRow) (authType : String) (limit : PyVal) :
    List CatalogRow :=
  let authFilter := pyLower (pyStrip authType.data)
  ((sortS (fun a b => b.action_count + b.trigger_count ≤ a.action_count + a.trigger_count)
      (db.filter (fun r => pyLower (r.auth_type.getD "").data == authFilter))).take
    (listPiecesByAuthTypeLimit limit).toNat)

/-! ## Generic lemmas -/

theorem insertS_perm (le : α → α → Bool) (a : α) (l : List α) :
    List.Perm (insertS le a l) (a :: l) := by
  induction l with
  | nil => simp [insertS]
  | cons b t ih =>
    rw [insertS]
    split
    · exact List.Perm.refl _
    · exact (List.Perm.cons b ih).trans (List.Perm.swap a b t)

theorem sortS_perm (le : α → α → Bool) (l : List α) : List.Perm (sortS le l) l := by
  induction l with
  | nil => exact List.Perm.refl _
  | cons a t ih => exact (insertS_perm le a (sortS le t)).trans (List.Perm.cons a ih)

theorem mem_insertS {le : α → α → Bool} {a x : α} {l : List α}
    (h : x ∈ insertS le a l) : x = a ∨ x ∈ l := by
  have := (insertS_perm le a l).mem_iff.mp h
  simpa using this

theorem pairwise_insertS {le : α → α → Bool}
    (htot : ∀ a b, le a b = true ∨ le b a = true)
    (htrans : ∀ a b c, le a b = true → le b c = true → le a c = true)
    (a : α) {l : List α} (h : l.Pairwise (fun x y => le x y = true)) :
    (insertS le a l).Pairwise (fun x y => le x y = true) := by
  induction l with
  | nil => simp [insertS]
  | cons b t ih =>
    rw [List.pairwise_cons] at h
    rw [insertS]
    split
    · rename_i hab
      refine List.pairwise_cons.mpr ⟨?_, List.pairwise_cons.mpr h⟩
      intro x hx
      rcases List.mem_cons.mp hx with hxb | hxt
      · subst hxb; exact hab
      · exact htrans a b x hab (h.1 x hxt)
    · rename_i hab
      refine List.pairwise_cons.mpr ⟨?_, ih h.2⟩
      intro x hx
      rcases mem_insertS hx with hxa | hxm
      · subst hxa
        rcases htot x b with hxb | hbx
        · exact absurd hxb hab
        · exact hbx
      · exact h.1 x hxm

theorem pairwise_sortS {le : α → α → Bool}
    (htot : ∀ a b, le a b = true ∨ le b a = true)
    (htrans : ∀ a b c, le a b = true → le b c = true → le a c = true)
    (l : List α) : (sortS le l).Pairwise (fun x y => le x y = true) := by
  induction l with
  | nil => simp [sortS]
  | cons a t ih => exact pairwise_insertS htot htrans a ih

theorem dropWhile_dropWhile (p : α → Bool) (l : List α) :
    (l.dropWhile p).dropWhile p = l.dropWhile p := by
  induction l with
  | nil => rfl
  | cons a t ih =>
    by_cases h : p a
    · simp [List.dropWhile_cons, h, ih]
    · simp [List.dropWhile_cons, h]

theorem head_dropWhile_false (p : α → Bool) (l : List α) (c : α)
    (h : (l.dropWhile p).head? = some c) : p c = false := by
  induction l with
  | nil => simp at h
  | cons a t ih =>
    by_cases hp : p a
    · rw [List.dropWhile_cons, if_pos hp] at h
      exact ih h
    · rw [List.dropWhile_cons, if_neg hp] at h
      simp at h
      subst h
      simpa using hp

theorem dropWhile_eq_self_of_head (p : α → Bool) (l : List α)
    (h : ∀ c, l.head? = some c → p c = false) : l.dropWhile p = l := by
  cases l with
  | nil => rfl
  | cons a t => simp [List.dropWhile_cons, h a rfl]

theorem pyStrip_prefix_dropWhile (l : PyStr) :
    pyStrip l <+: l.dropWhile pyIsSpace := by
  unfold pyStrip
  have h1 : List.dropWhile pyIsSpace (l.dropWhile pyIsSpace).reverse
      <:+ (l.dropWhile pyIsSpace).reverse := List.dropWhile_suffix _
  have := List.reverse_prefix.mpr h1
  simpa using this

theorem pyStrip_head (l : PyStr) (c : Char) (h : (pyStrip l).head? = some c) :
    pyIsSpace c = false := by
  obtain ⟨t, ht⟩ := pyStrip_prefix_dropWhile l
  apply head_dropWhile_false pyIsSpace l c
  rw [← ht]
  cases hs : pyStrip l with
  | nil => rw [hs] at h; simp at h
  | cons a s => rw [hs] at h; simp at h; subst h; rfl

theorem pyStrip_idem (l : PyStr) : pyStrip (pyStrip l) = pyStrip l := by
  have hfront : (pyStrip l).dropWhile pyIsSpace = pyStrip l :=
    dropWhile_eq_self_of_head _ _ (fun c hc => pyStrip_head l c hc)
  have hrev : (pyStrip l).reverse
      = List.dropWhile pyIsSpace (l.dropWhile pyIsSpace).reverse := by
    show (((l.dropWhile pyIsSpace).reverse.dropWhile pyIsSpace).reverse).reverse = _
    rw [List.reverse_reverse]
  calc pyStrip (pyStrip l)
      = (((pyStrip l).dropWhile pyIsSpace).reverse.dropWhile pyIsSpace).reverse := rfl
    _ = ((pyStrip l).reverse.dropWhile pyIsSpace).reverse := by rw [hfront]
    _ = ((List.dropWhile pyIsSpace (l.dropWhile pyIsSpace).reverse).dropWhile
          pyIsSpace).reverse := by rw [hrev]
    _ = (List.dropWhile pyIsSpace (l.dropWhile pyIsSpace).reverse).reverse := by
          rw [dropWhile_dropWhile]
    _ = pyStrip l := by rw [← hrev, List.reverse_reverse]

theorem foldl_add_ite (p : α → Bool) (k : Nat) (l : List α) (init : Nat) :
    l.foldl (fun s x => s + (if p x then k else 0)) init = init + k * l.countP p := by
  induction l generalizing init with
  | nil => simp
  | cons a t ih =>
    rw [List.foldl_cons, ih, List.countP_cons]
    by_cases h : p a <;> simp [h] <;> ring

theorem foldl_add_ite2 (p q : α → Bool) (k m : Nat) (l : List α) (init : Nat) :
    l.foldl (fun s x => s + (if p x then k else 0) + (if q x then m else 0)) init
      = init + k * l.countP p + m * l.countP q := by
  induction l generalizing init with
  | nil => simp
  | cons a t ih =>
    rw [List.foldl_cons, ih, List.countP_cons, List.countP_cons]
    by_cases h : p a <;> by_cases h' : q a <;> simp [h, h'] <;> ring

/-- `calculate_score` in closed form: the additive sum of the fixed
bonuses over all scored fields. -/
theorem calculateScore_closed (ql : PyStr) (p : ApiPiece) :
    calculateScore ql p =
      (if isSubstring ql (pyLower p.name.data) then 100 else 0)
        + (if isSubstring ql (pyLower p.displayName.data) then 80 else 0)
        + (if isSubstring ql (pyLower p.description.data) then 40 else 0)
        + 30 * p.categories.countP (fun c => isSubstring ql (pyLower c.data))
        + 20 * p.actions.countP (fun a => isSubstring ql (pyLower a.displayName.data))
        + 10 * p.actions.countP (fun a => isSubstring ql (pyLower a.description.data))
        + 20 * p.triggers.countP (fun t => isSubstring ql (pyLower t.displayName.data))
        + 10 * p.triggers.countP (fun t => isSubstring ql (pyLower t.description.data)) := by
  simp only [calculateScore]
  rw [foldl_add_ite, foldl_add_ite2, foldl_add_ite2]
  ring

/-! ## C3 — `rank_search_results` scoring and ordering -/

/-- C3 counterexample: the claim scores only the name, display name,
description and category fields, but the code also scores hits inside
each action's and trigger's display name and description.  For the query
"send", the piece "Alpha" (whose only hits are in its two action display
names) outranks "Beta" (a category hit), so the returned order is not
non-increasing in the claimed four-field score, and the assigned score of
"Alpha" differs from the claimed one. -/
theorem rank_search_results_fields_counterexample :
    ¬ (rankSearchResults
        [{ name := "alpha", displayName := "Alpha", description := "", categories := [],
           actions := [⟨"Send Email", ""⟩, ⟨"Send SMS", ""⟩], triggers := [] },
         { name := "beta", displayName := "Beta", description := "", categories := ["send"],
           actions := [], triggers := [] }] "send".data).Pairwise
        (fun a b => claimedScore (pyLower "send".data) b ≤ claimedScore (pyLower "send".data) a)
      ∧ calculateScore (pyLower "send".data)
          { name := "alpha", displayName := "Alpha", description := "", categories := [],
            actions := [⟨"Send Email", ""⟩, ⟨"Send SMS", ""⟩], triggers := [] }
        ≠ claimedScore (pyLower "send".data)
          { name := "alpha", displayName := "Alpha", description := "", categories := [],
            actions := [⟨"Send Email", ""⟩, ⟨"Send SMS", ""⟩], triggers := [] } := by
  decide

/-- C3 (amended): `rank_search_results` assigns each piece a relevance
score that is the additive sum of fixed bonuses — one per case-insensitive
substring hit of the query in the piece's name (100), display name (80),
description (40), each category (30), and additionally each action's and
trigger's display name (20) and description (10) — and returns the pieces
sorted in non-increasing order of that score. -/
theorem rank_search_results_additive_sorted (pieces : List ApiPiece) (query : PyStr) :
    List.Perm (rankSearchResults pieces query) pieces ∧
    (rankSearchResults pieces query).Pairwise
      (fun a b => calculateScore (pyLower query) b ≤ calculateScore (pyLower query) a) ∧
    (∀ p : ApiPiece, calculateScore (pyLower query) p =
      (if isSubstring (pyLower query) (pyLower p.name.data) then 100 else 0)
        + (if isSubstring (pyLower query) (pyLower p.displayName.data) then 80 else 0)
        + (if isSubstring (pyLower query) (pyLower p.description.data) then 40 else 0)
        + 30 * p.categories.countP (fun c => isSubstring (pyLower query) (pyLower c.data))
        + 20 * p.actions.countP
            (fun a => isSubstring (pyLower query) (pyLower a.displayName.data))
        + 10 * p.actions.countP
            (fun a => isSubstring (pyLower query) (pyLower a.description.data))
        + 20 * p.triggers.countP
            (fun t => isSubstring (pyLower query) (pyLower t.displayName.data))
        + 10 * p.triggers.countP
            (fun t => isSubstring (pyLower query) (pyLower t.description.data))) := by
  refine ⟨sortS_perm _ _, ?_, fun p => calculateScore_closed _ p⟩
  have h := @pairwise_sortS _
    (fun a b =>
      decide (calculateScore (pyLower query) b ≤ calculateScore (pyLower query) a))
    (fun a b => by
      rcases Nat.le_total (calculateScore (pyLower query) b) (calculateScore (pyLower query) a)
        with h | h
      · exact Or.inl (decide_eq_true h)
      · exact Or.inr (decide_eq_true h))
    (fun a b c hab hbc =>
      decide_eq_true (Nat.le_trans (of_decide_eq_true hbc) (of_decide_eq_true hab)))
    pieces
  exact h.imp (fun hx => of_decide_eq_true hx)

/-! ## C5 — the planner's plan cache is LRU -/

theorem length_lruGet_snd (c : PlanCache) (k : PyStr) :
    (lruGet c k).2.length ≤ c.length := by
  unfold lruGet
  cases hf : (c.find? (fun e => e.1 == k)).map (·.2) with
  | none => simp
  | some p =>
    simp only []
    rw [List.length_append]
    simp only [List.length_cons, List.length_nil]
    have hlt : (c.filter (fun e => !(e.1 == k))).length < c.length := by
      rw [List.length_filter_lt_length_iff_exists]
      rcases hf2 : c.find? (fun e => e.1 == k) with _ | e0
      · rw [hf2] at hf; simp at hf
      · exact ⟨e0, List.mem_of_find?_eq_some hf2, by
          have := List.find?_some hf2
          simp [this]⟩
    omega

theorem length_lruStore (maxsize : Nat) (c : PlanCache) (k : PyStr) (p : Plan)
    (h : c.length ≤ maxsize) : (lruStore maxsize c k p).length ≤ maxsize := by
  unfold lruStore
  have hf : (c.filter (fun e => !(e.1 == k))).length ≤ c.length := List.length_filter_le _ _
  split
  · rename_i hgt
    rw [List.length_tail]
    rw [List.length_append] at hgt ⊢
    simp only [List.length_cons, List.length_nil] at hgt ⊢
    omega
  · rename_i hle
    rw [List.length_append] at hle ⊢
    simp only [List.length_cons, List.length_nil] at hle ⊢
    omega

/-- C5: the planner's plan cache is an LRU cache.  (1) After any sequence
of `_get_cached_plan` / `_store_plan` operations from the initial empty
cache, it holds at most the configured maximum number of entries.
(2) Storing a new key into a full cache evicts exactly the
least-recently-used entry (the front of the recency order) and leaves
every other entry unchanged, appending the new entry at the
most-recently-used end.  (3) Lookups count as uses: after a hit on the
least-recently-used entry, storing a new key into the full cache evicts
the next entry instead, and the looked-up entry survives. -/
theorem planner_plan_cache_lru (maxsize : Nat) :
    (∀ ops : List CacheOp, (runCacheOps maxsize ops []).length ≤ maxsize) ∧
    (∀ (cache : PlanCache) (k : PyStr) (p : Plan),
      cache.length = maxsize → 1 ≤ maxsize →
      (∀ e ∈ cache, e.1 ≠ k) →
      lruStore maxsize cache k p = cache.tail ++ [(k, p)]) ∧
    (∀ (k0 : PyStr) (p0 : Plan) (rest : PlanCache) (k : PyStr) (p : Plan),
      (((k0, p0) :: rest).map (fun e => e.1)).Nodup →
      ((k0, p0) :: rest).length = maxsize → 2 ≤ maxsize →
      (∀ e ∈ (k0, p0) :: rest, e.1 ≠ k) →
      lruStore maxsize (lruGet ((k0, p0) :: rest) k0).2 k p
        = rest.tail ++ [(k0, p0), (k, p)]) := by
  have hstore : ∀ (cache : PlanCache) (k : PyStr) (p : Plan),
      cache.length = maxsize → 1 ≤ maxsize → (∀ e ∈ cache, e.1 ≠ k) →
      lruStore maxsize cache k p = cache.tail ++ [(k, p)] := by
    intro cache k p hlen hmax hnew
    unfold lruStore
    have hfilter : cache.filter (fun e => !(e.1 == k)) = cache := by
      rw [List.filter_eq_self]
      intro e he
      simpa using hnew e he
    rw [hfilter]
    have hgt : maxsize < (cache ++ [(k, p)]).length := by
      rw [List.length_append]; simp [hlen]
    rw [if_pos hgt]
    cases cache with
    | nil => simp at hlen; omega
    | cons e0 t => rfl
  refine ⟨?_, hstore, ?_⟩
  · intro ops
    suffices h : ∀ (ops : List CacheOp) (c : PlanCache), c.length ≤ maxsize →
        (runCacheOps maxsize ops c).length ≤ maxsize by
      exact h ops [] (by simp)
    intro ops
    induction ops with
    | nil => intro c hc; exact hc
    | cons op rest ih =>
      intro c hc
      rw [runCacheOps, List.foldl_cons]
      cases op with
      | get k =>
        exact ih _ (Nat.le_trans (length_lruGet_snd c k) hc)
      | store k p =>
        exact ih _ (length_lruStore maxsize c k p hc)
  · intro k0 p0 rest k p hnodup hlen hmax hnew
    have hget : (lruGet ((k0, p0) :: rest) k0).2 = rest ++ [(k0, p0)] := by
      unfold lruGet
      have hfind : ((k0, p0) :: rest).find? (fun e => e.1 == k0) = some (k0, p0) := by
        rw [List.find?_cons_of_pos]
        simp
      rw [hfind]
      dsimp only [Option.map]
      have hrestfilter : rest.filter (fun e => !(e.1 == k0)) = rest := by
        rw [List.filter_eq_self]
        intro e he
        have hk0 : k0 ∉ rest.map (fun e => e.1) := by
          rw [List.map_cons, List.nodup_cons] at hnodup
          exact hnodup.1
        have : e.1 ≠ k0 := by
          intro heq
          exact hk0 (heq ▸ List.mem_map_of_mem (fun e => e.1) he)
        simpa using this
      have : ((k0, p0) :: rest).filter (fun e => !(e.1 == k0)) = rest := by
        rw [List.filter_cons]
        simp [hrestfilter]
      rw [this]
    rw [hget]
    have hlen2 : (rest ++ [(k0, p0)]).length = maxsize := by
      have h1 : rest.length + 1 = maxsize := by simpa using hlen
      simpa using h1
    have hnew2 : ∀ e ∈ rest ++ [(k0, p0)], e.1 ≠ k := by
      intro e he
      rcases List.mem_append.mp he with he | he
      · exact hnew e (List.mem_cons_of_mem _ he)
      · simp at he
        subst he
        exact hnew (k0, p0) (List.mem_cons_self _ _)
    rw [hstore (rest ++ [(k0, p0)]) k p hlen2 (by omega) hnew2]
    cases rest with
    | nil => simp at hlen; omega
    | cons e1 t => simp

/-- C5 witness: a concrete full cache of size 2 evicts exactly its
least-recently-used entry when a new key is stored. -/
theorem planner_plan_cache_lru_witness :
    (([(("a".data : PyStr), createFallbackPlan []), ("b".data, createFallbackPlan [])]
        : PlanCache).length = 2
      ∧ (1 : Nat) ≤ 2
      ∧ ∀ e ∈ ([(("a".data : PyStr), createFallbackPlan []),
                 ("b".data, createFallbackPlan [])] : PlanCache), e.1 ≠ "c".data) ∧
    lruStore 2 [(("a".data : PyStr), createFallbackPlan []), ("b".data, createFallbackPlan [])]
        "c".data (createFallbackPlan [])
      = ([(("a".data : PyStr), createFallbackPlan []),
          ("b".data, createFallbackPlan [])] : PlanCache).tail
        ++ [("c".data, createFallbackPlan [])] :=
  ⟨⟨by decide, by decide, by decide⟩,
   (planner_plan_cache_lru 2).2.1 _ _ _ (by decide) (by decide) (by decide)⟩

/-! ## C1 — the planner's fast heuristics -/

theorem mem_lruGet_snd {c : PlanCache} {k : PyStr} {e : PyStr × Plan}
    (h : e ∈ (lruGet c k).2) : e ∈ c := by
  unfold lruGet at h
  cases hf : c.find? (fun x => x.1 == k) with
  | none => rw [hf] at h; simpa using h
  | some e0 =>
    rw [hf] at h
    dsimp only [Option.map] at h
    rcases List.mem_append.mp h with h1 | h1
    · exact List.mem_of_mem_filter h1
    · have h2 : e = (k, e0.2) := by simpa using h1
      have hk : e0.1 = k := by simpa using List.find?_some hf
      have hm : e0 ∈ c := List.mem_of_find?_eq_some hf
      rw [h2, ← hk]
      exact hm

theorem lruGet_fst_some {c : PlanCache} {k : PyStr} {p : Plan}
    (h : (lruGet c k).1 = some p) : ∃ e ∈ c, e.1 = k ∧ e.2 = p := by
  unfold lruGet at h
  cases hf : c.find? (fun x => x.1 == k) with
  | none => rw [hf] at h; simp at h
  | some e0 =>
    rw [hf] at h
    dsimp only [Option.map] at h
    refine ⟨e0, List.mem_of_find?_eq_some hf, by simpa using List.find?_some hf, ?_⟩
    simpa using h

theorem mem_lruStore {maxsize : Nat} {c : PlanCache} {k : PyStr} {p : Plan}
    {e : PyStr × Plan} (h : e ∈ lruStore maxsize c k p) : e ∈ c ∨ e = (k, p) := by
  unfold lruStore at h
  split at h
  · have h2 := List.mem_of_mem_tail h
    rcases List.mem_append.mp h2 with h3 | h3
    · exact Or.inl (List.mem_of_mem_filter h3)
    · exact Or.inr (by simpa using h3)
  · rcases List.mem_append.mp h with h3 | h3
    · exact Or.inl (List.mem_of_mem_filter h3)
    · exact Or.inr (by simpa using h3)

theorem inv_lruGet {model : String} {c : PlanCache} {k : PyStr}
    (h : PlannerCacheInv model c) : PlannerCacheInv model (lruGet c k).2 :=
  fun e he => h e (mem_lruGet_snd he)

theorem inv_lruStore {model : String} {maxsize : Nat} {c : PlanCache} {k : PyStr} {p : Plan}
    (h : PlannerCacheInv model c) (hk : PlanEntryOk model k p) :
    PlannerCacheInv model (lruStore maxsize c k p) := by
  intro e he
  rcases mem_lruStore he with h1 | h1
  · exact h e h1
  · subst h1; exact hk

theorem key_decode {model : String} {ql ql' : PyStr}
    (h : model.data ++ ':' :: ql = model.data ++ ':' :: ql') : ql = ql' := by
  have h2 := List.append_cancel_left h
  simpa using h2

theorem planEntryOk_fast {model : String} {normalized : PyStr}
    (hs : pyStrip normalized = normalized) {fp : Plan}
    (hfp : buildFastPlan normalized = some fp) (hne : normalized ≠ []) :
    PlanEntryOk model (model.data ++ ':' :: pyLower normalized) fp := by
  intro ql hql
  have hql2 : pyLower normalized = ql := key_decode hql
  subst hql2
  simp only [buildFastPlan, hs, if_neg hne] at hfp
  by_cases h1 : looksLikeSimpleLookup (pyLower normalized)
  · rw [if_pos h1] at hfp
    have hfp2 : createSimpleLookupPlan normalized = fp := by simpa using hfp
    subst hfp2
    exact ⟨fun _ => ⟨rfl, rfl⟩, fun hfalse _ => absurd h1 (by simp [hfalse])⟩
  · rw [if_neg h1] at hfp
    by_cases h2 : looksLikeDetailLookup (pyLower normalized)
    · rw [if_pos h2] at hfp
      have hfp2 : createDetailLookupPlan normalized = fp := by simpa using hfp
      subst hfp2
      exact ⟨fun hh => absurd hh h1, fun _ _ => ⟨rfl, rfl⟩⟩
    · rw [if_neg h2] at hfp
      simp at hfp

theorem planEntryOk_not_fast {model : String} {normalized : PyStr} {p : Plan}
    (hs : pyStrip normalized = normalized)
    (hnone : buildFastPlan normalized = none) (hne : normalized ≠ []) :
    PlanEntryOk model (model.data ++ ':' :: pyLower normalized) p := by
  intro ql hql
  have hql2 : pyLower normalized = ql := key_decode hql
  subst hql2
  simp only [buildFastPlan, hs, if_neg hne] at hnone
  by_cases h1 : looksLikeSimpleLookup (pyLower normalized)
  · rw [if_pos h1] at hnone; simp at hnone
  · rw [if_neg h1] at hnone
    by_cases h2 : looksLikeDetailLookup (pyLower normalized)
    · rw [if_pos h2] at hnone; simp at hnone
    · exact ⟨fun hh => absurd hh h1, fun _ hh => absurd hh h2⟩

/-- `analyze_query` preserves the cache invariant: every entry it stores
under a heuristic-matching key is the corresponding fixed fast-path
plan. -/
theorem analyzeQuery_preserves_inv (model : String) (llm : PyStr → Option Plan)
    (maxsize : Nat) (cache : PlanCache) (q : PyStr)
    (hinv : PlannerCacheInv model cache) :
    PlannerCacheInv model (analyzeQuery model llm maxsize cache q).2.1 := by
  by_cases hne : pyStrip q = []
  · simpa [analyzeQuery, hne] using hinv
  · have hs : pyStrip (pyStrip q) = pyStrip q := pyStrip_idem q
    simp only [analyzeQuery, if_neg hne]
    rcases hget : lruGet cache (model.data ++ ':' :: pyLower (pyStrip q)) with ⟨hit, cache1⟩
    have hinv1 : PlannerCacheInv model cache1 := by
      have := @inv_lruGet model cache (model.data ++ ':' :: pyLower (pyStrip q)) hinv
      rwa [hget] at this
    cases hit with
    | some cached => simpa using hinv1
    | none =>
      cases hfp : buildFastPlan (pyStrip q) with
      | some fp =>
        simpa using inv_lruStore hinv1 (planEntryOk_fast hs hfp hne)
      | none =>
        cases hllm : llm (pyStrip q) with
        | some plan =>
          simpa [hllm] using inv_lruStore hinv1 (planEntryOk_not_fast hs hfp hne)
        | none =>
          simpa [hllm] using inv_lruStore hinv1 (planEntryOk_not_fast hs hfp hne)

/-- C1: a query matched by one of the planner's two fast heuristics gets a
fixed plan with exactly one recommended tool (`check_activepieces` for the
existence heuristic, tested first; `search_activepieces_docs` for the
configuration heuristic) and `max_tool_calls = 1`, and no LLM call is
made. -/
theorem planner_fast_path_one_tool_no_llm (model : String) (llm : PyStr → Option Plan)
    (maxsize : Nat) (cache : PlanCache) (q : PyStr)
    (hinv : PlannerCacheInv model cache)
    (hfast : buildFastPlan (pyStrip q) ≠ none) :
    (analyzeQuery model llm maxsize cache q).2.2 = false ∧
    (analyzeQuery model llm maxsize cache q).1.max_tool_calls = some 1 ∧
    (analyzeQuery model llm maxsize cache q).1.recommended_tools =
      (if looksLikeSimpleLookup (pyLower (pyStrip q)) then ["check_activepieces"]
       else ["search_activepieces_docs"]) := by
  have hs : pyStrip (pyStrip q) = pyStrip q := pyStrip_idem q
  have hne : pyStrip q ≠ [] := by
    intro h
    apply hfast
    rw [h]
    rfl
  obtain ⟨fp, hfp⟩ := Option.ne_none_iff_exists'.mp hfast
  have hdetail : looksLikeSimpleLookup (pyLower (pyStrip q)) = false →
      looksLikeDetailLookup (pyLower (pyStrip q)) = true := by
    intro h1
    by_contra h2
    rw [Bool.not_eq_true] at h2
    rw [buildFastPlan] at hfp
    simp only [hs, if_neg hne, h1, h2] at hfp
    simp at hfp
  simp only [analyzeQuery, if_neg hne]
  rcases hget : lruGet cache (model.data ++ ':' :: pyLower (pyStrip q)) with ⟨hit, cache1⟩
  cases hit with
  | some cached =>
    have h1 : (lruGet cache (model.data ++ ':' :: pyLower (pyStrip q))).1 = some cached := by
      rw [hget]
    obtain ⟨e, hmem, hkey, hval⟩ := lruGet_fst_some h1
    have hok := hinv e hmem (pyLower (pyStrip q)) hkey
    rw [hval] at hok
    by_cases hsimple : looksLikeSimpleLookup (pyLower (pyStrip q))
    · obtain ⟨ht, hm⟩ := hok.1 hsimple
      simp [hsimple, ht, hm]
    · rw [Bool.not_eq_true] at hsimple
      obtain ⟨ht, hm⟩ := hok.2 hsimple (hdetail hsimple)
      simp [hsimple, ht, hm]
  | none =>
    have hok := @planEntryOk_fast model _ hs _ hfp hne (pyLower (pyStrip q)) rfl
    by_cases hsimple : looksLikeSimpleLookup (pyLower (pyStrip q))
    · obtain ⟨ht, hm⟩ := hok.1 hsimple
      simp [hfp, hsimple, ht, hm]
    · rw [Bool.not_eq_true] at hsimple
      obtain ⟨ht, hm⟩ := hok.2 hsimple (hdetail hsimple)
      simp [hfp, hsimple, ht, hm]

/-- C1 witness: the concrete query "is gmail available?" is matched by the
existence heuristic; with an empty cache, `analyze_query` returns the
fixed `check_activepieces` one-tool plan without an LLM call. -/
theorem planner_fast_path_one_tool_no_llm_witness :
    (PlannerCacheInv "gpt-5-mini" [] ∧
      buildFastPlan (pyStrip "is gmail available?".data) ≠ none) ∧
    ((analyzeQuery "gpt-5-mini" (fun _ => none) 64 [] "is gmail available?".data).2.2 = false ∧
     (analyzeQuery "gpt-5-mini" (fun _ => none) 64 [] "is gmail available?".data).1.max_tool_calls
        = some 1 ∧
     (analyzeQuery "gpt-5-mini" (fun _ => none) 64 [] "is gmail available?".data).1.recommended_tools
        = (if looksLikeSimpleLookup (pyLower (pyStrip "is gmail available?".data))
           then ["check_activepieces"] else ["search_activepieces_docs"])) :=
  ⟨⟨fun e he => absurd he (List.not_mem_nil e), by decide⟩,
   planner_fast_path_one_tool_no_llm "gpt-5-mini" (fun _ => none) 64 []
     "is gmail available?".data (fun e he => absurd he (List.not_mem_nil e)) (by decide)⟩

/-! ## C2 — `find_piece_by_name`: exact match first, then substring -/

/-- C2: `find_piece_by_name` first attempts an exact (case-insensitive)
match on the piece name/display name and returns that record when it
exists; only when no exact match exists does it fall back to a substring
match and return the first such result; when neither matches it returns
`None`; and every returned record is the matched piece's record carrying
its nested actions and triggers. -/
theorem find_piece_by_name_spec (db : PiecesDb) (name : PyStr) :
    (∀ r : PieceRow, db.pieces.find? (pieceExactMatch (pyLower (pyStrip name))) = some r →
      findPieceByName db name = some (pieceRecordOf db r)) ∧
    ((∀ r ∈ db.pieces, pieceExactMatch (pyLower (pyStrip name)) r = false) →
      ∀ r : PieceRow, db.pieces.find? (piecePartialMatch (pyLower (pyStrip name))) = some r →
        findPieceByName db name = some (pieceRecordOf db r)) ∧
    ((∀ r ∈ db.pieces, pieceExactMatch (pyLower (pyStrip name)) r = false
        ∧ piecePartialMatch (pyLower (pyStrip name)) r = false) →
      findPieceByName db name = none) ∧
    (∀ rec : PieceRecord, findPieceByName db name = some rec →
      ∃ r ∈ db.pieces, rec = pieceRecordOf db r) := by
  refine ⟨?_, ?_, ?_, ?_⟩
  · intro r hr
    simp only [findPieceByName, hr]
  · intro hnone r hr
    have hfe : db.pieces.find? (pieceExactMatch (pyLower (pyStrip name))) = none := by
      rw [List.find?_eq_none]
      intro x hx
      simp [hnone x hx]
    simp only [findPieceByName, hfe, hr]
  · intro hboth
    have hfe : db.pieces.find? (pieceExactMatch (pyLower (pyStrip name))) = none := by
      rw [List.find?_eq_none]
      intro x hx
      simp [(hboth x hx).1]
    have hfp : db.pieces.find? (piecePartialMatch (pyLower (pyStrip name))) = none := by
      rw [List.find?_eq_none]
      intro x hx
      simp [(hboth x hx).2]
    simp only [findPieceByName, hfe, hfp]
  · intro rec hrec
    simp only [findPieceByName] at hrec
    cases hfe : db.pieces.find? (pieceExactMatch (pyLower (pyStrip name))) with
    | some r =>
      rw [hfe] at hrec
      simp only [Option.some.injEq] at hrec
      exact ⟨r, List.mem_of_find?_eq_some hfe, hrec.symm⟩
    | none =>
      rw [hfe] at hrec
      cases hfp : db.pieces.find? (piecePartialMatch (pyLower (pyStrip name))) with
      | some r =>
        rw [hfp] at hrec
        simp only [Option.some.injEq] at hrec
        exact ⟨r, List.mem_of_find?_eq_some hfp, hrec.symm⟩
      | none =>
        rw [hfp] at hrec
        simp at hrec

/-- C2 witness: a one-piece database where " Gmail " exact-matches the
stored piece (case-insensitively) and the returned record carries its
action and trigger lists. -/
theorem find_piece_by_name_spec_witness :
    ((PiecesDb.mk
        [{ id := 1, name := "gmail", display_name := "Gmail",
           description := some "Email by Google", categories := ["COMMUNICATION"],
           auth_type := some "OAuth2", version := "1.0.0" }]
        [{ piece_id := 1, display_name := "Send Email",
           description := some "Send an email", requires_auth := true }]
        []).pieces.find? (pieceExactMatch (pyLower (pyStrip " Gmail ".data)))
      = some { id := 1, name := "gmail", display_name := "Gmail",
               description := some "Email by Google", categories := ["COMMUNICATION"],
               auth_type := some "OAuth2", version := "1.0.0" }) ∧
    findPieceByName
        (PiecesDb.mk
          [{ id := 1, name := "gmail", display_name := "Gmail",
             description := some "Email by Google", categories := ["COMMUNICATION"],
             auth_type := some "OAuth2", version := "1.0.0" }]
          [{ piece_id := 1, display_name := "Send Email",
             description := some "Send an email", requires_auth := true }]
          [])
        " Gmail ".data
      = some (pieceRecordOf
          (PiecesDb.mk
            [{ id := 1, name := "gmail", display_name := "Gmail",
               description := some "Email by Google", categories := ["COMMUNICATION"],
               auth_type := some "OAuth2", version := "1.0.0" }]
            [{ piece_id := 1, display_name := "Send Email",
               description := some "Send an email", requires_auth := true }]
            [])
          { id := 1, name := "gmail", display_name := "Gmail",
            description := some "Email by Google", categories := ["COMMUNICATION"],
            auth_type := some "OAuth2", version := "1.0.0" }) :=
  ⟨by decide,
   (find_piece_by_name_spec _ " Gmail ".data).1 _ (by decide)⟩

/-! ## C9 — `enqueue_reply` chunked streaming is lossless and ordered -/

theorem filterMap_some_fun (f : α → β) (l : List α) :
    l.filterMap (fun x => some (f x)) = l.map f := by
  induction l with
  | nil => rfl
  | cons a t ih => simp [List.filterMap_cons, ih]

theorem chunks_flatten :
    ∀ (n : Nat) (cs : PyStr), cs.length ≤ n * 3000 → n * 3000 < cs.length + 3000 →
      ((List.range n).map (fun i => (cs.drop (i * 3000)).take 3000)).flatten = cs := by
  intro n
  induction n with
  | zero =>
    intro cs h1 _
    have hlen : cs.length = 0 := by omega
    rw [List.length_eq_zero] at hlen
    simp [hlen]
  | succ n ih =>
    intro cs h1 h2
    rw [List.range_succ_eq_map]
    simp only [List.map_cons, List.map_map, List.flatten_cons, Nat.zero_mul, List.drop_zero]
    have hmap : (List.range n).map
        ((fun i => (cs.drop (i * 3000)).take 3000) ∘ Nat.succ)
        = (List.range n).map (fun i => ((cs.drop 3000).drop (i * 3000)).take 3000) := by
      apply List.map_congr_left
      intro i _
      simp only [Function.comp]
      rw [List.drop_drop, show (3000 : Nat) + i * 3000 = Nat.succ i * 3000 from by omega]
    have hlen1 : (cs.drop 3000).length ≤ n * 3000 := by
      rw [List.length_drop]; omega
    have hlen2 : n * 3000 < (cs.drop 3000).length + 3000 := by
      rw [List.length_drop]; omega
    rw [hmap, ih (cs.drop 3000) hlen1 hlen2]
    exact List.take_append_drop 3000 cs

/-- C9: `enqueue_reply` chunked streaming is lossless and ordered.  A
reply over the 6000-character threshold is emitted as a `chunk_start`
frame announcing the total chunk count, then consecutive chunk frames of
at most 3000 characters each, indexed `0, ..., total-1` in order, whose
concatenation is exactly the reply, then `chunk_end` and a bare `done`
frame; otherwise the reply is sent whole in a single `done` frame. -/
theorem enqueue_reply_lossless (reply : PyStr) :
    (CHUNK_THRESHOLD < reply.length →
      ∃ total : Nat,
        total = (reply.length + CHUNK_SIZE - 1) / CHUNK_SIZE ∧
        (enqueueReply (some reply)).head? = some (Frame.chunkStart total) ∧
        ((enqueueReply (some reply)).filterMap
            (fun f => match f with | Frame.chunk _ i _ => some i | _ => none))
          = List.range total ∧
        ((enqueueReply (some reply)).filterMap
            (fun f => match f with | Frame.chunk d _ _ => some d | _ => none)).flatten
          = reply ∧
        (∀ d i t, Frame.chunk d i t ∈ enqueueReply (some reply) →
          d.length ≤ CHUNK_SIZE ∧ t = total) ∧
        (enqueueReply (some reply)).getLast? = some (Frame.done none) ∧
        (enqueueReply (some reply)).dropLast.getLast? = some Frame.chunkEnd) ∧
    (reply.length ≤ CHUNK_THRESHOLD →
      enqueueReply (some reply) = [Frame.done (some reply)]) := by
  constructor
  · intro h
    set T := (reply.length + CHUNK_SIZE - 1) / CHUNK_SIZE with hT
    set M := (List.range T).map
      (fun idx => Frame.chunk ((reply.drop (idx * CHUNK_SIZE)).take CHUNK_SIZE) idx T) with hM
    have henq : enqueueReply (some reply)
        = Frame.chunkStart T :: (M ++ [Frame.chunkEnd, Frame.done none]) := by
      simp only [enqueueReply, if_pos h, hM, hT]
      simp [List.cons_append]
    refine ⟨T, rfl, ?_, ?_, ?_, ?_, ?_, ?_⟩
    · rw [henq]; rfl
    · rw [henq]
      simp [hM, List.filterMap_cons, List.filterMap_append, List.filterMap_map,
        Function.comp_def]
    · rw [henq]
      simp only [hM, List.filterMap_cons, List.filterMap_append, List.filterMap_map,
        Function.comp_def, List.filterMap_nil, List.append_nil]
      rw [filterMap_some_fun]
      have hdm := Nat.div_add_mod (reply.length + 2999) 3000
      have hml : (reply.length + 2999) % 3000 < 3000 := Nat.mod_lt _ (by norm_num)
      have hTval : T = (reply.length + 2999) / 3000 := hT
      exact chunks_flatten T reply (by omega) (by omega)
    · intro d i t hmem
      rw [henq] at hmem
      rcases List.mem_cons.mp hmem with hx | hx
      · exact absurd hx (by simp)
      rcases List.mem_append.mp hx with hx | hx
      · rw [hM] at hx
        rcases List.mem_map.mp hx with ⟨idx, _, hidx⟩
        have hd : (reply.drop (idx * CHUNK_SIZE)).take CHUNK_SIZE = d := by
          injection hidx
        have ht : T = t := by
          injection hidx
        refine ⟨?_, ht.symm⟩
        rw [← hd]
        simpa using List.length_take_le CHUNK_SIZE _
      · rcases List.mem_cons.mp hx with hx | hx
        · exact absurd hx (by simp)
        · simp at hx
    · rw [henq, show Frame.chunkStart T :: (M ++ [Frame.chunkEnd, Frame.done none])
            = (Frame.chunkStart T :: (M ++ [Frame.chunkEnd])) ++ [Frame.done none] by simp]
      exact List.getLast?_concat _
    · rw [henq, show Frame.chunkStart T :: (M ++ [Frame.chunkEnd, Frame.done none])
            = (Frame.chunkStart T :: (M ++ [Frame.chunkEnd])) ++ [Frame.done none] by simp]
      rw [List.dropLast_concat]
      rw [show Frame.chunkStart T :: (M ++ [Frame.chunkEnd])
            = (Frame.chunkStart T :: M) ++ [Frame.chunkEnd] by simp]
      exact List.getLast?_concat _
  · intro h
    have h2 : ¬ (CHUNK_THRESHOLD < reply.length) := by omega
    simp only [enqueueReply, if_neg h2]


/-- C9 witness: a 6001-character reply is chunked (3 chunks) and a short
reply rides whole in its done frame. -/
theorem enqueue_reply_lossless_witness :
    (CHUNK_THRESHOLD < (List.replicate 6001 'a').length ∧
      (∃ total : Nat,
        total = ((List.replicate 6001 'a').length + CHUNK_SIZE - 1) / CHUNK_SIZE ∧
        (enqueueReply (some (List.replicate 6001 'a'))).head? = some (Frame.chunkStart total) ∧
        ((enqueueReply (some (List.replicate 6001 'a'))).filterMap
            (fun f => match f with | Frame.chunk _ i _ => some i | _ => none))
          = List.range total ∧
        ((enqueueReply (some (List.replicate 6001 'a'))).filterMap
            (fun f => match f with | Frame.chunk d _ _ => some d | _ => none)).flatten
          = List.replicate 6001 'a' ∧
        (∀ d i t, Frame.chunk d i t ∈ enqueueReply (some (List.replicate 6001 'a')) →
          d.length ≤ CHUNK_SIZE ∧ t = total) ∧
        (enqueueReply (some (List.replicate 6001 'a'))).getLast? = some (Frame.done none) ∧
        (enqueueReply (some (List.replicate 6001 'a'))).dropLast.getLast?
          = some Frame.chunkEnd)) ∧
    ("hi".data.length ≤ CHUNK_THRESHOLD ∧
      enqueueReply (some "hi".data) = [Frame.done (some "hi".data)]) :=
  ⟨⟨by norm_num [CHUNK_THRESHOLD],
    (enqueue_reply_lossless (List.replicate 6001 'a')).1 (by norm_num [CHUNK_THRESHOLD])⟩,
   ⟨by decide, (enqueue_reply_lossless "hi".data).2 (by decide)⟩⟩

/-! ## C4 — the set of frame types on the status queue -/

theorem frame_ftype_mem (f : Frame) :
    f.ftype ∈ (["status", "action_log", "action_log_update", "chunk_start", "chunk",
      "chunk_end", "done", "error", "cancelled", "streaming_update"] : List String) := by
  cases f <;> simp [Frame.ftype]

/-- C4 counterexample: `on_tool_end` puts a dictionary of type
`action_log_update` on the status queue, which is not among the six types
the claim lists (`enqueue_reply` likewise emits `chunk_start` and
`chunk_end`). -/
theorem status_frame_types_counterexample :
    onToolEnd false ⟨1⟩ (some 1)
      = Except.ok [Frame.actionLogUpdate ((1 : Nat) : ℚ) 1 "completed",
                   Frame.status "💭 Thinking..." none] ∧
    (Frame.actionLogUpdate ((1 : Nat) : ℚ) 1 "completed").ftype ∉
      (["status", "action_log", "chunk", "done", "error", "cancelled"] : List String) := by
  constructor
  · rfl
  · decide

/-- C4 (amended): every dictionary the streaming chat endpoint places on
the status queue has a `type` field whose value is one of exactly
`status`, `action_log`, `action_log_update`, `chunk_start`, `chunk`,
`chunk_end`, `done`, `error`, `cancelled`, or `streaming_update` (the last
forwarded from the flow builder), across every modelled emitter: the
callback handler hooks, `enqueue_reply`, `run_agent`, and the flow
builder's forwarded logs. -/
theorem status_frame_types :
    (∀ (c : Bool) (st : HandlerState) (tool input : String) (now : ℚ)
        (fs : List Frame) (st' : HandlerState),
      onAgentAction c st tool input now = .ok (fs, st') →
      ∀ f ∈ fs, f.ftype ∈ (["status", "action_log", "action_log_update", "chunk_start",
        "chunk", "chunk_end", "done", "error", "cancelled", "streaming_update"]
          : List String)) ∧
    (∀ (c : Bool) (fs : List Frame), onToolStart c = .ok fs →
      ∀ f ∈ fs, f.ftype ∈ (["status", "action_log", "action_log_update", "chunk_start",
        "chunk", "chunk_end", "done", "error", "cancelled", "streaming_update"]
          : List String)) ∧
    (∀ (c : Bool) (st : HandlerState) (dur : Option ℚ) (fs : List Frame),
      onToolEnd c st dur = .ok fs →
      ∀ f ∈ fs, f.ftype ∈ (["status", "action_log", "action_log_update", "chunk_start",
        "chunk", "chunk_end", "done", "error", "cancelled", "streaming_update"]
          : List String)) ∧
    (∀ (c : Bool) (st : HandlerState) (now : ℚ) (fs : List Frame),
      onLlmStart c st now = .ok fs →
      ∀ f ∈ fs, f.ftype ∈ (["status", "action_log", "action_log_update", "chunk_start",
        "chunk", "chunk_end", "done", "error", "cancelled", "streaming_update"]
          : List String)) ∧
    (∀ (st : HandlerState) (dur : Option ℚ), ∀ f ∈ onLlmEnd st dur,
      f.ftype ∈ (["status", "action_log", "action_log_update", "chunk_start",
        "chunk", "chunk_end", "done", "error", "cancelled", "streaming_update"]
          : List String)) ∧
    (∀ (c : Bool) (st : HandlerState) (now : ℚ), ∀ f ∈ onAgentFinish c st now,
      f.ftype ∈ (["status", "action_log", "action_log_update", "chunk_start",
        "chunk", "chunk_end", "done", "error", "cancelled", "streaming_update"]
          : List String)) ∧
    (∀ r : Option PyStr, ∀ f ∈ enqueueReply r,
      f.ftype ∈ (["status", "action_log", "action_log_update", "chunk_start",
        "chunk", "chunk_end", "done", "error", "cancelled", "streaming_update"]
          : List String)) ∧
    (∀ (um : String) (during : List Frame) (outcome : InvokeOutcome) (es : Bool),
      ∀ f ∈ runAgentFrames um during outcome es,
      f.ftype ∈ (["status", "action_log", "action_log_update", "chunk_start",
        "chunk", "chunk_end", "done", "error", "cancelled", "streaming_update"]
          : List String)) ∧
    (∀ (counter : Nat) (icon action : String) (detail : Option String) (stat : String)
        (dur : Option ℚ) (now : ℚ),
      (flowEmitActionLog counter icon action detail stat dur now).ftype
        ∈ (["status", "action_log", "action_log_update", "chunk_start",
        "chunk", "chunk_end", "done", "error", "cancelled", "streaming_update"]
          : List String)) ∧
    (∀ (counter : Nat) (newText : String) (chars words : Nat) (elapsed : ℚ),
      (flowStreamingUpdate counter newText chars words elapsed).ftype
        ∈ (["status", "action_log", "action_log_update", "chunk_start",
        "chunk", "chunk_end", "done", "error", "cancelled", "streaming_update"]
          : List String)) :=
  ⟨fun _ _ _ _ _ _ _ _ f _ => frame_ftype_mem f,
   fun _ _ _ f _ => frame_ftype_mem f,
   fun _ _ _ _ _ f _ => frame_ftype_mem f,
   fun _ _ _ _ _ f _ => frame_ftype_mem f,
   fun _ _ f _ => frame_ftype_mem f,
   fun _ _ _ f _ => frame_ftype_mem f,
   fun _ f _ => frame_ftype_mem f,
   fun _ _ _ _ f _ => frame_ftype_mem f,
   fun _ _ _ _ _ _ _ => frame_ftype_mem _,
   fun _ _ _ _ _ => frame_ftype_mem _⟩

/-- C4 witness: a concrete `on_tool_end` emission whose frames all carry
one of the ten queue frame types. -/
theorem status_frame_types_witness :
    (onToolEnd false ⟨2⟩ none = Except.ok [Frame.status "💭 Thinking..." none]) ∧
    (∀ f ∈ [Frame.status "💭 Thinking..." none],
      f.ftype ∈ (["status", "action_log", "action_log_update", "chunk_start",
        "chunk", "chunk_end", "done", "error", "cancelled", "streaming_update"]
          : List String)) :=
  ⟨rfl, status_frame_types.2.2.1 false ⟨2⟩ none [Frame.status "💭 Thinking..." none] rfl⟩

/-! ## C7 — cooperative cancellation -/

theorem streamDeliver_append_terminal (l : List Frame) (c : Frame)
    (hl : ∀ f ∈ l, isTerminalFrame f = false) (hc : isTerminalFrame c = true) :
    streamDeliver (l ++ [c]) = l ++ [c] := by
  induction l with
  | nil => simp [streamDeliver, hc]
  | cons a t ih =>
    rw [List.cons_append, streamDeliver]
    rw [hl a (List.mem_cons_self a t)]
    simp only [Bool.false_eq_true, if_false, List.cons_append, List.cons.injEq, true_and]
    exact ih (fun f hf => hl f (List.mem_cons_of_mem a hf))

theorem startFrames_not_terminal (um : String) :
    ∀ f ∈ runAgentStartFrames um, isTerminalFrame f = false := by
  intro f hf
  simp only [runAgentStartFrames, List.mem_cons, List.mem_singleton] at hf
  rcases hf with rfl | rfl | rfl | rfl | h
  · rfl
  · rfl
  · rfl
  · rfl
  · simp at h

/-- C7: once the cancellation event is set, every callback hook that
checks cancellation (`on_agent_action` before tool dispatch,
`on_tool_start`, `on_tool_end`, `on_llm_start`) raises
`CancellationException` instead of proceeding (emitting nothing), and
when the agent invocation ends with that exception the delivered stream
terminates with a frame of type `cancelled` and contains no `done`
frame. -/
theorem cancellation_cooperative :
    (∀ (st : HandlerState) (tool input : String) (now : ℚ),
      onAgentAction true st tool input now = .error ()) ∧
    (onToolStart true = .error ()) ∧
    (∀ (st : HandlerState) (dur : Option ℚ), onToolEnd true st dur = .error ()) ∧
    (∀ (st : HandlerState) (now : ℚ), onLlmStart true st now = .error ()) ∧
    (∀ (um : String) (during : List Frame) (es : Bool),
      (∀ f ∈ during, isTerminalFrame f = false) →
      (streamDeliver (runAgentFrames um during .cancelledExc es)).getLast?
          = some (Frame.cancelled "Request cancelled") ∧
      ∀ f ∈ streamDeliver (runAgentFrames um during .cancelledExc es),
        f.ftype ≠ "done") := by
  refine ⟨fun _ _ _ _ => rfl, rfl, fun _ _ => rfl, fun _ _ => rfl, ?_⟩
  intro um during es hduring
  have hassoc : runAgentFrames um during .cancelledExc es
      = (runAgentStartFrames um ++ during) ++ [Frame.cancelled "Request cancelled"] := by
    simp [runAgentFrames, List.append_assoc]
  have hnl : ∀ f ∈ runAgentStartFrames um ++ during, isTerminalFrame f = false := by
    intro f hf
    rcases List.mem_append.mp hf with hf | hf
    · exact startFrames_not_terminal um f hf
    · exact hduring f hf
  have hstream : streamDeliver (runAgentFrames um during .cancelledExc es)
      = (runAgentStartFrames um ++ during) ++ [Frame.cancelled "Request cancelled"] := by
    rw [hassoc]
    exact streamDeliver_append_terminal _ _ hnl rfl
  constructor
  · rw [hstream]
    exact List.getLast?_concat _
  · intro f hf
    rw [hstream] at hf
    rcases List.mem_append.mp hf with hf | hf
    · intro hdone
      have := hnl f hf
      rw [isTerminalFrame, hdone] at this
      simp at this
    · have : f = Frame.cancelled "Request cancelled" := by simpa using hf
      rw [this]
      simp [Frame.ftype]

/-- C7 witness: with the cancellation event set, the hooks raise at a
concrete state, and a cancelled agent run delivers a stream ending in the
`cancelled` frame with no `done` frame. -/
theorem cancellation_cooperative_witness :
    (onAgentAction true ⟨0⟩ "check_activepieces_tool" "Gmail" 5 = .error ()) ∧
    ((∀ f ∈ ([] : List Frame), isTerminalFrame f = false) ∧
      (streamDeliver (runAgentFrames "hi" [] .cancelledExc false)).getLast?
          = some (Frame.cancelled "Request cancelled") ∧
      ∀ f ∈ streamDeliver (runAgentFrames "hi" [] .cancelledExc false),
        f.ftype ≠ "done") :=
  ⟨cancellation_cooperative.1 ⟨0⟩ "check_activepieces_tool" "Gmail" 5,
   ⟨fun f hf => absurd hf (List.not_mem_nil f),
    cancellation_cooperative.2.2.2.2 "hi" [] false
      (fun f hf => absurd hf (List.not_mem_nil f))⟩⟩

/-! ## C6 — session files and the index stay consistent -/

theorem alistGet_set_self {β : Type} (l : List (String × β)) (k : String) (v : β) :
    alistGet (alistSet l k v) k = some v := by
  induction l with
  | nil => simp [alistSet, alistGet]
  | cons e t ih =>
    rw [alistSet]
    by_cases h : e.1 == k
    · rw [if_pos h]
      simp [alistGet]
    · rw [if_neg h, alistGet, if_neg h]
      exact ih

theorem alistGet_set_other {β : Type} (l : List (String × β)) (k k' : String) (v : β)
    (h : k' ≠ k) : alistGet (alistSet l k v) k' = alistGet l k' := by
  have hkk : (k == k') = false := by
    rw [beq_eq_false_iff_ne]
    exact fun hh => h hh.symm
  induction l with
  | nil =>
    simp only [alistSet, alistGet]
    rw [if_neg (by simp [hkk])]
  | cons e t ih =>
    rw [alistSet]
    by_cases hek : e.1 == k
    · rw [if_pos hek]
      have h1 : e.1 = k := by simpa using hek
      rw [alistGet, alistGet, if_neg (by simp [hkk])]
      rw [if_neg (by rw [h1]; simp [hkk])]
    · rw [if_neg hek, alistGet, alistGet]
      by_cases hek' : e.1 == k'
      · rw [if_pos hek', if_pos hek']
      · rw [if_neg hek', if_neg hek']
        exact ih

theorem alistGet_del_self {β : Type} (l : List (String × β)) (k : String) :
    alistGet (alistDel l k) k = none := by
  induction l with
  | nil => simp [alistDel, alistGet]
  | cons e t ih =>
    rw [alistDel]
    by_cases h : e.1 == k
    · rw [if_pos h]
      exact ih
    · rw [if_neg h, alistGet, if_neg h]
      exact ih

theorem alistGet_del_other {β : Type} (l : List (String × β)) (k k' : String)
    (h : k' ≠ k) : alistGet (alistDel l k) k' = alistGet l k' := by
  induction l with
  | nil => simp [alistDel]
  | cons e t ih =>
    rw [alistDel]
    by_cases hek : e.1 == k
    · rw [if_pos hek]
      have h1 : e.1 = k := by simpa using hek
      rw [alistGet, if_neg (by rw [h1]; simp [beq_eq_false_iff_ne]; exact fun hh => h hh.symm)]
      exact ih
    · rw [if_neg hek, alistGet, alistGet]
      by_cases hek' : e.1 == k'
      · rw [if_pos hek', if_pos hek']
      · rw [if_neg hek', if_neg hek']
        exact ih

theorem alistGet_mem {β : Type} {l : List (String × β)} {k : String} {v : β}
    (h : alistGet l k = some v) : (k, v) ∈ l := by
  induction l with
  | nil => simp [alistGet] at h
  | cons e t ih =>
    rw [alistGet] at h
    by_cases he : e.1 == k
    · rw [if_pos he] at h
      have hv : e.2 = v := by simpa using h
      have hk2 : e.1 = k := by simpa using he
      rw [← hk2, ← hv]
      exact List.mem_cons_self e t
    · rw [if_neg he] at h
      exact List.mem_cons_of_mem e (ih h)

theorem consistent_set {st : SessionStore} (hc : StoreConsistent st) (k : String)
    (v : SessionData) (m : IndexMeta) :
    StoreConsistent ⟨alistSet st.files k v, alistSet st.index k m⟩ := by
  intro sid
  by_cases h : sid = k
  · subst h
    simp [alistGet_set_self]
  · simp only [alistGet_set_other _ _ _ _ h]
    exact hc sid

theorem keyed_set_list (k : String) (v : SessionData) (hv : v.session_id = k) :
    ∀ (files : List (String × SessionData)),
      (∀ e ∈ files, e.2.session_id = e.1) →
      ∀ e ∈ alistSet files k v, e.2.session_id = e.1 := by
  intro files
  induction files with
  | nil =>
    intro _ e he
    have : e = (k, v) := by simpa [alistSet] using he
    rw [this]
    exact hv
  | cons e0 t ih =>
    intro hk e he
    rw [alistSet] at he
    by_cases h0 : e0.1 == k
    · rw [if_pos h0] at he
      rcases List.mem_cons.mp he with rfl | he
      · exact hv
      · exact hk e (List.mem_cons_of_mem e0 he)
    · rw [if_neg h0] at he
      rcases List.mem_cons.mp he with heq | he
      · rw [heq]
        exact hk e0 (List.mem_cons_self e0 t)
      · exact ih (fun x hx => hk x (List.mem_cons_of_mem e0 hx)) e he

theorem store_inv_init : StoreConsistent ⟨[], []⟩ ∧ StoreKeyed ⟨[], []⟩ :=
  ⟨fun _ => Iff.rfl, fun e he => absurd he (List.not_mem_nil e)⟩

theorem store_inv_create (st : SessionStore) (sid now : String)
    (hc : StoreConsistent st) (hk : StoreKeyed st) :
    StoreConsistent (createSession st sid now).2 ∧ StoreKeyed (createSession st sid now).2 := by
  constructor
  · exact consistent_set hc sid _ _
  · intro e he
    exact keyed_set_list sid _ rfl st.files hk e he

theorem store_inv_save (st : SessionStore) (sdata : SessionData) (now : String)
    (hc : StoreConsistent st) (hk : StoreKeyed st) :
    StoreConsistent (saveSession st sdata now) ∧ StoreKeyed (saveSession st sdata now) := by
  constructor
  · exact consistent_set hc sdata.session_id _ _
  · intro e he
    simp only [saveSession] at he
    exact keyed_set_list sdata.session_id { sdata with updated_at := now } rfl st.files hk e he

theorem store_inv_log (st : SessionStore) (sid u a now : String)
    (hc : StoreConsistent st) (hk : StoreKeyed st) :
    StoreConsistent (logInteraction st sid u a now)
      ∧ StoreKeyed (logInteraction st sid u a now) := by
  rw [logInteraction]
  cases hload : loadSession st sid with
  | some sdata =>
    exact store_inv_save st _ now hc hk
  | none =>
    have h1 := store_inv_create st sid now hc hk
    exact store_inv_save (createSession st sid now).2 _ now h1.1 h1.2

theorem store_inv_clear (st : SessionStore) (sid : String)
    (hc : StoreConsistent st) (hk : StoreKeyed st) :
    StoreConsistent (clearSession st sid) ∧ StoreKeyed (clearSession st sid) := by
  rw [clearSession]
  split
  · constructor
    · intro s
      by_cases h : s = sid
      · subst h
        simp [alistGet_del_self]
      · simp only [alistGet_del_other _ _ _ h]
        exact hc s
    · intro e he
      simp only at he
      have hmem : e ∈ st.files := by
        have : ∀ (l : List (String × SessionData)), e ∈ alistDel l sid → e ∈ l := by
          intro l
          induction l with
          | nil => intro hh; simpa [alistDel] using hh
          | cons e0 t ih =>
            intro hh
            rw [alistDel] at hh
            by_cases h0 : e0.1 == sid
            · rw [if_pos h0] at hh
              exact List.mem_cons_of_mem e0 (ih hh)
            · rw [if_neg h0] at hh
              rcases List.mem_cons.mp hh with heq | hh
              · rw [heq]; exact List.mem_cons_self e0 t
              · exact List.mem_cons_of_mem e0 (ih hh)
        exact this st.files he
      exact hk e hmem
  · exact ⟨hc, hk⟩

/-- C6: `log_interaction` grows the session's message list by exactly two
entries (the user message then the assistant message, in that order) and
rewrites the index entry with the new message count and a refreshed
`updated_at`; `clear_session` (on a consistent store) leaves neither the
session file nor its index entry; both invariants (files/index
consistency, keyed files) hold initially and are preserved by every
writing operation (see `store_inv_init`, `store_inv_create`,
`store_inv_save`, `store_inv_log`, `store_inv_clear`). -/
theorem session_log_clear_consistent :
    (∀ (st : SessionStore) (sid userMessage assistantMessage now : String),
      StoreKeyed st →
      ∃ s' : SessionData,
        loadSession (logInteraction st sid userMessage assistantMessage now) sid = some s' ∧
        s'.messages
          = ((loadSession st sid).map (fun s => s.messages)).getD []
            ++ [{ role := "user", message := userMessage, timestamp := now },
                { role := "assistant", message := assistantMessage, timestamp := now }] ∧
        ∃ m : IndexMeta,
          alistGet (logInteraction st sid userMessage assistantMessage now).index sid
            = some m ∧
          m.message_count = s'.messages.length ∧
          m.updated_at = now) ∧
    (∀ (st : SessionStore) (sid : String), StoreConsistent st →
      loadSession (clearSession st sid) sid = none ∧
      alistGet (clearSession st sid).index sid = none) := by
  constructor
  · intro st sid u a now hkeyed
    cases hload : loadSession st sid with
    | none =>
      refine ⟨{ session_id := sid, created_at := now, updated_at := now,
                messages := [{ role := "user", message := u, timestamp := now },
                             { role := "assistant", message := a, timestamp := now }] },
        ?_, ?_, { created_at := now, updated_at := now, message_count := 2 }, ?_, rfl, rfl⟩
      · rw [logInteraction, hload]
        simp only [createSession, saveSession, loadSession]
        exact alistGet_set_self _ _ _
      · simp [hload]
      · rw [logInteraction, hload]
        simp only [createSession, saveSession]
        exact alistGet_set_self _ _ _
    | some sdata =>
      have hsid : sdata.session_id = sid := by
        have hmem : (sid, sdata) ∈ st.files := alistGet_mem hload
        exact hkeyed (sid, sdata) hmem
      refine ⟨{ sdata with
                updated_at := now,
                messages := sdata.messages
                  ++ [{ role := "user", message := u, timestamp := now },
                      { role := "assistant", message := a, timestamp := now }] },
        ?_, ?_,
        { created_at := sdata.created_at, updated_at := now,
          message_count := (sdata.messages
            ++ [({ role := "user", message := u, timestamp := now } : SessionMsg),
                ({ role := "assistant", message := a, timestamp := now } : SessionMsg)]).length },
        ?_, rfl, rfl⟩
      · rw [logInteraction, hload]
        simp only [saveSession, loadSession, hsid]
        exact alistGet_set_self _ _ _
      · simp [hload]
      · rw [logInteraction, hload]
        simp only [saveSession, hsid]
        exact alistGet_set_self _ _ _
  · intro st sid hc
    rw [clearSession]
    split
    · constructor
      · exact alistGet_del_self _ _
      · exact alistGet_del_self _ _
    · rename_i hfile
      have h1 : (alistGet st.files sid).isSome = false := by
        simpa using hfile
      have h2 : (alistGet st.index sid).isSome = false := by
        rcases Bool.eq_false_or_eq_true ((alistGet st.index sid).isSome) with h | h
        · have hcontra := (hc sid).mpr (by simp [h])
          rw [h1] at hcontra
          simp at hcontra
        · exact h
      constructor
      · rw [loadSession]
        exact Option.not_isSome_iff_eq_none.mp (by simp [h1])
      · exact Option.not_isSome_iff_eq_none.mp (by simp [h2])

/-- C6 witness: logging into a fresh empty store creates the session with
exactly the two messages and a matching index entry; clearing a session
id on the empty (trivially consistent) store leaves neither file nor
index entry. -/
theorem session_log_clear_consistent_witness :
    (StoreKeyed ⟨[], []⟩ ∧
      ∃ s' : SessionData,
        loadSession (logInteraction ⟨[], []⟩ "s1" "hi" "hello" "t1") "s1" = some s' ∧
        s'.messages
          = ((loadSession (⟨[], []⟩ : SessionStore) "s1").map (fun s => s.messages)).getD []
            ++ [{ role := "user", message := "hi", timestamp := "t1" },
                { role := "assistant", message := "hello", timestamp := "t1" }] ∧
        ∃ m : IndexMeta,
          alistGet (logInteraction ⟨[], []⟩ "s1" "hi" "hello" "t1").index "s1" = some m ∧
          m.message_count = s'.messages.length ∧
          m.updated_at = "t1") ∧
    (StoreConsistent ⟨[], []⟩ ∧
      loadSession (clearSession ⟨[], []⟩ "s1") "s1" = none ∧
      alistGet (clearSession (⟨[], []⟩ : SessionStore) "s1").index "s1" = none) :=
  ⟨⟨store_inv_init.2,
    session_log_clear_consistent.1 ⟨[], []⟩ "s1" "hi" "hello" "t1" store_inv_init.2⟩,
   ⟨store_inv_init.1,
    session_log_clear_consistent.2 ⟨[], []⟩ "s1" store_inv_init.1⟩⟩

/-! ## C10 — catalog tools clamp their limits -/

theorem clampLimit_lower (default cap : Int) (limit : PyVal) (hcap : 1 ≤ cap) :
    1 ≤ clampLimit default cap limit := le_max_left 1 _

theorem clampLimit_upper (default cap : Int) (limit : PyVal) (hcap : 1 ≤ cap) :
    clampLimit default cap limit ≤ cap :=
  max_le hcap (min_le_right _ _)

/-- C10: every catalog tool clamps its effective limit into its fixed
range before querying — `search_piece_catalog`, `find_action_by_name`,
`find_trigger_by_name` and `get_top_pieces_overview` to `[1, 50]` and
`list_pieces_by_auth_type` to `[1, 100]` — falling back to its default
(10 / 50 / 50 / 10 / 25) when the argument cannot be parsed as an
integer, and no query returns more rows than the tool's cap. -/
theorem catalog_limit_clamping :
    (∀ limit : PyVal,
      1 ≤ searchPieceCatalogLimit limit ∧ searchPieceCatalogLimit limit ≤ 50 ∧
      1 ≤ findActionByNameLimit limit ∧ findActionByNameLimit limit ≤ 50 ∧
      1 ≤ findTriggerByNameLimit limit ∧ findTriggerByNameLimit limit ≤ 50 ∧
      1 ≤ getTopPiecesOverviewLimit limit ∧ getTopPiecesOverviewLimit limit ≤ 50 ∧
      1 ≤ listPiecesByAuthTypeLimit limit ∧ listPiecesByAuthTypeLimit limit ≤ 100) ∧
    (∀ limit : PyVal, pyToInt limit = none →
      searchPieceCatalogLimit limit = 10 ∧ findActionByNameLimit limit = 50 ∧
      findTriggerByNameLimit limit = 50 ∧ getTopPiecesOverviewLimit limit = 10 ∧
      listPiecesByAuthTypeLimit limit = 25) ∧
    (∀ (ftsMatch : String → CatalogRow → Bool) (db : List CatalogRow)
        (query authType : String) (limit : PyVal),
      (searchPieceCatalogRows ftsMatch db query authType limit).length ≤ 50) ∧
    (∀ (ftsMatch : String → ActionRow → Bool) (db : List ActionRow)
        (actionName : String) (limit : PyVal),
      (findActionByNameRows ftsMatch db actionName limit).length ≤ 50) ∧
    (∀ (db : List TriggerQueryRow) (triggerName : String) (limit : PyVal),
      (findTriggerByNameRows db triggerName limit).length ≤ 50) ∧
    (∀ (db : List CatalogRow) (limit : PyVal),
      (getTopPiecesOverviewRows db limit).length ≤ 50) ∧
    (∀ (db : List CatalogRow) (authType : String) (limit : PyVal),
      (listPiecesByAuthTypeRows db authType limit).length ≤ 100) := by
  have hto50 : ∀ limit : PyVal, (clampLimit 10 50 limit).toNat ≤ 50 := by
    intro limit
    have h := clampLimit_upper 10 50 limit (by norm_num)
    omega
  have hto50' : ∀ limit : PyVal, (clampLimit 50 50 limit).toNat ≤ 50 := by
    intro limit
    have h := clampLimit_upper 50 50 limit (by norm_num)
    omega
  have hto100 : ∀ limit : PyVal, (clampLimit 25 100 limit).toNat ≤ 100 := by
    intro limit
    have h := clampLimit_upper 25 100 limit (by norm_num)
    omega
  refine ⟨?_, ?_, ?_, ?_, ?_, ?_, ?_⟩
  · intro limit
    exact ⟨clampLimit_lower _ _ _ (by norm_num), clampLimit_upper _ _ _ (by norm_num),
      clampLimit_lower _ _ _ (by norm_num), clampLimit_upper _ _ _ (by norm_num),
      clampLimit_lower _ _ _ (by norm_num), clampLimit_upper _ _ _ (by norm_num),
      clampLimit_lower _ _ _ (by norm_num), clampLimit_upper _ _ _ (by norm_num),
      clampLimit_lower _ _ _ (by norm_num), clampLimit_upper _ _ _ (by norm_num)⟩
  · intro limit h
    simp [searchPieceCatalogLimit, findActionByNameLimit, findTriggerByNameLimit,
      getTopPiecesOverviewLimit, listPiecesByAuthTypeLimit, clampLimit, h]
  · intro ftsMatch db query authType limit
    simp only [searchPieceCatalogRows, searchPiecesRows]
    split
    · refine le_trans (List.length_filter_le _ _) ?_
      split
      · exact le_trans (List.length_take_le _ _) (hto50 limit)
      · exact le_trans (List.length_take_le _ _) (hto50 limit)
    · split
      · exact le_trans (List.length_take_le _ _) (hto50 limit)
      · exact le_trans (List.length_take_le _ _) (hto50 limit)
  · intro ftsMatch db actionName limit
    simp only [findActionByNameRows]
    exact le_trans (List.length_take_le _ _) (hto50' limit)
  · intro db triggerName limit
    simp only [findTriggerByNameRows]
    exact le_trans (List.length_take_le _ _) (hto50' limit)
  · intro db limit
    simp only [getTopPiecesOverviewRows]
    exact le_trans (List.length_take_le _ _) (hto50 limit)
  · intro db authType limit
    simp only [listPiecesByAuthTypeRows]
    exact le_trans (List.length_take_le _ _) (hto100 limit)

/-- C10 witness: the unparseable limit `None` falls back to each tool's
default, and a non-numeric string is clamped into range. -/
theorem catalog_limit_clamping_witness :
    (pyToInt PyVal.vnone = none ∧
      searchPieceCatalogLimit PyVal.vnone = 10 ∧
      findActionByNameLimit PyVal.vnone = 50 ∧
      findTriggerByNameLimit PyVal.vnone = 50 ∧
      getTopPiecesOverviewLimit PyVal.vnone = 10 ∧
      listPiecesByAuthTypeLimit PyVal.vnone = 25) ∧
    (1 ≤ searchPieceCatalogLimit (PyVal.vstr "lots") ∧
      searchPieceCatalogLimit (PyVal.vstr "lots") ≤ 50 ∧
      1 ≤ findActionByNameLimit (PyVal.vstr "lots") ∧
      findActionByNameLimit (PyVal.vstr "lots") ≤ 50 ∧
      1 ≤ findTriggerByNameLimit (PyVal.vstr "lots") ∧
      findTriggerByNameLimit (PyVal.vstr "lots") ≤ 50 ∧
      1 ≤ getTopPiecesOverviewLimit (PyVal.vstr "lots") ∧
      getTopPiecesOverviewLimit (PyVal.vstr "lots") ≤ 50 ∧
      1 ≤ listPiecesByAuthTypeLimit (PyVal.vstr "lots") ∧
      listPiecesByAuthTypeLimit (PyVal.vstr "lots") ≤ 100) :=
  ⟨⟨rfl, catalog_limit_clamping.2.1 PyVal.vnone rfl⟩,
   catalog_limit_clamping.1 (PyVal.vstr "lots")⟩

/-! ## C8 — `search_activepieces_docs` deduplication, ranking, truncation -/

theorem replaceCond_true_iff (newScore stored : Option ℚ) :
    replaceCond newScore stored = true ↔ skey newScore < skey stored := by
  cases newScore with
  | none =>
    simp [replaceCond, skey]
  | some s =>
    cases stored with
    | none => simp [replaceCond, skey]
    | some t => simp [replaceCond, skey]

theorem skey_le_of_replaceCond_false {newScore stored : Option ℚ}
    (h : replaceCond newScore stored = false) : skey stored ≤ skey newScore := by
  rcases le_or_lt (skey stored) (skey newScore) with hle | hlt
  · exact hle
  · rw [(replaceCond_true_iff newScore stored).mpr hlt] at h
    simp at h

theorem eq_of_mem_nodup_keys {β : Type} {l : List (PyStr × β)}
    (h : (l.map (fun e => e.1)).Nodup) {e e' : PyStr × β}
    (he : e ∈ l) (he' : e' ∈ l) (hk : e.1 = e'.1) : e = e' := by
  induction l with
  | nil => simp at he
  | cons a t ih =>
    rw [List.map_cons, List.nodup_cons] at h
    rcases List.mem_cons.mp he with hea | het
    · rcases List.mem_cons.mp he' with hea' | het'
      · rw [hea, hea']
      · exfalso
        apply h.1
        rw [← hea, hk]
        exact List.mem_map_of_mem (fun e => e.1) het'
    · rcases List.mem_cons.mp he' with hea' | het'
      · exfalso
        apply h.1
        rw [← hea', ← hk]
        exact List.mem_map_of_mem (fun e => e.1) het
      · exact ih h.2 het het'

theorem aggInsert_inv (processed : List (PyStr × (RDoc × Option ℚ)))
    (agg : List (PyStr × AggEntry)) (v : PyStr) (pr : RDoc × Option ℚ)
    (h : AggInv processed agg) : AggInv (processed ++ [(v, pr)]) (aggInsert agg v pr) := by
  obtain ⟨h1, h2, h3, h4, h5⟩ := h
  rw [aggInsert]
  cases hf : (agg.find? (fun e => e.1 == dedupKey pr.1)).map (·.2) with
  | none =>
    have hfind : agg.find? (fun e => e.1 == dedupKey pr.1) = none := by
      cases hff : agg.find? (fun e => e.1 == dedupKey pr.1) with
      | none => rfl
      | some e0 => rw [hff] at hf; simp at hf
    have hnotin : dedupKey pr.1 ∉ agg.map (fun e => e.1) := by
      intro hmem
      rcases List.mem_map.mp hmem with ⟨e, he, hke⟩
      rw [List.find?_eq_none] at hfind
      have hne := hfind e he
      apply hne
      rw [hke]
      exact beq_self_eq_true _
    refine ⟨?_, ?_, ?_, ?_, ?_⟩
    · rw [List.map_append]
      rw [List.nodup_append]
      refine ⟨h1, List.nodup_singleton _, ?_⟩
      intro a ha hb
      have : a = dedupKey pr.1 := by simpa using hb
      rw [this] at ha
      exact hnotin ha
    · intro e he
      rcases List.mem_append.mp he with he | he
      · exact h2 e he
      · have : e = (dedupKey pr.1, (⟨pr.1, pr.2, v⟩ : AggEntry)) := by simpa using he
        rw [this]
    · intro e he
      rcases List.mem_append.mp he with he | he
      · obtain ⟨p, hp, hps⟩ := h3 e he
        exact ⟨p, List.mem_append_left _ hp, hps⟩
      · have : e = (dedupKey pr.1, (⟨pr.1, pr.2, v⟩ : AggEntry)) := by simpa using he
        rw [this]
        exact ⟨(v, pr), List.mem_append_right _ (List.mem_singleton_self _), rfl, rfl, rfl⟩
    · intro e he p hp hkey
      rcases List.mem_append.mp he with he | he
      · rcases List.mem_append.mp hp with hp | hp
        · exact h4 e he p hp hkey
        · have hpv : p = (v, pr) := by simpa using hp
          exfalso
          apply hnotin
          rw [hpv] at hkey
          rw [hkey]
          exact List.mem_map_of_mem (fun e => e.1) he
      · have hee : e = (dedupKey pr.1, (⟨pr.1, pr.2, v⟩ : AggEntry)) := by simpa using he
        rcases List.mem_append.mp hp with hp | hp
        · exfalso
          obtain ⟨e'', he'', hk''⟩ := h5 p hp
          apply hnotin
          rw [hee] at hkey
          simp only at hkey
          rw [← hkey, ← hk'']
          exact List.mem_map_of_mem (fun e => e.1) he''
        · have hpv : p = (v, pr) := by simpa using hp
          rw [hee, hpv]
    · intro p hp
      rcases List.mem_append.mp hp with hp | hp
      · obtain ⟨e, he, hke⟩ := h5 p hp
        exact ⟨e, List.mem_append_left _ he, hke⟩
      · have hpv : p = (v, pr) := by simpa using hp
        rw [hpv]
        exact ⟨(dedupKey pr.1, (⟨pr.1, pr.2, v⟩ : AggEntry)),
          List.mem_append_right _ (List.mem_singleton_self _), rfl⟩
  | some stored =>
    have hfind : ∃ e0 ∈ agg, agg.find? (fun e => e.1 == dedupKey pr.1) = some e0
        ∧ e0.2 = stored ∧ e0.1 = dedupKey pr.1 := by
      cases hff : agg.find? (fun e => e.1 == dedupKey pr.1) with
      | none => rw [hff] at hf; simp at hf
      | some e0 =>
        rw [hff] at hf
        have hv : e0.2 = stored := by simpa using hf
        have hk : e0.1 = dedupKey pr.1 := by simpa using List.find?_some hff
        exact ⟨e0, List.mem_of_find?_eq_some hff, rfl, hv, hk⟩
    obtain ⟨e0, he0, hff, he0v, he0k⟩ := hfind
    show AggInv (processed ++ [(v, pr)])
      (if replaceCond pr.2 stored.score = true then
        agg.map (fun e => if (e.1 == dedupKey pr.1) = true then
          (e.1, (⟨pr.1, pr.2, v⟩ : AggEntry)) else e)
      else agg)
    by_cases hrep : replaceCond pr.2 stored.score
    · rw [if_pos hrep]
      have hfst : ∀ e' : PyStr × AggEntry,
          (if e'.1 == dedupKey pr.1 then (e'.1, (⟨pr.1, pr.2, v⟩ : AggEntry)) else e').1
            = e'.1 := by
        intro e'
        by_cases hcl : e'.1 == dedupKey pr.1
        · rw [if_pos hcl]
        · rw [if_neg hcl]
      have hkeys : ((agg.map (fun e' =>
          if e'.1 == dedupKey pr.1 then (e'.1, (⟨pr.1, pr.2, v⟩ : AggEntry)) else e')).map
            (fun e => e.1)) = agg.map (fun e => e.1) := by
        rw [List.map_map]
        apply List.map_congr_left
        intro e _
        exact hfst e
      refine ⟨?_, ?_, ?_, ?_, ?_⟩
      · rw [hkeys]; exact h1
      · intro e he
        rcases List.mem_map.mp he with ⟨e', he', rfl⟩
        by_cases hcl : e'.1 == dedupKey pr.1
        · rw [if_pos hcl]
          simpa using hcl
        · rw [if_neg hcl]
          exact h2 e' he'
      · intro e he
        rcases List.mem_map.mp he with ⟨e', he', rfl⟩
        by_cases hcl : e'.1 == dedupKey pr.1
        · rw [if_pos hcl]
          exact ⟨(v, pr), List.mem_append_right _ (List.mem_singleton_self _), rfl, rfl, rfl⟩
        · rw [if_neg hcl]
          obtain ⟨p, hp, hps⟩ := h3 e' he'
          exact ⟨p, List.mem_append_left _ hp, hps⟩
      · intro e he p hp hkey
        rcases List.mem_map.mp he with ⟨e', he', rfl⟩
        by_cases hcl : e'.1 == dedupKey pr.1
        · rw [if_pos hcl] at hkey ⊢
          rcases List.mem_append.mp hp with hp | hp
          · have he'e0 : e' = e0 := eq_of_mem_nodup_keys h1 he' he0
              (by rw [he0k]; simpa using hcl)
            have hmin : skey e0.2.score ≤ skey p.2.2 := by
              apply h4 e0 he0 p hp
              simp only at hkey
              rw [hkey, he'e0]
            have hlt : skey pr.2 < skey stored.score :=
              (replaceCond_true_iff pr.2 stored.score).mp hrep
            rw [he0v] at hmin
            exact le_trans (le_of_lt hlt) hmin
          · have hpv : p = (v, pr) := by simpa using hp
            rw [hpv]
        · rw [if_neg hcl] at hkey ⊢
          rcases List.mem_append.mp hp with hp | hp
          · exact h4 e' he' p hp hkey
          · exfalso
            apply hcl
            have hpv : p = (v, pr) := by simpa using hp
            rw [hpv] at hkey
            rw [← hkey]
            exact beq_self_eq_true _
      · intro p hp
        rcases List.mem_append.mp hp with hp | hp
        · obtain ⟨e, he, hke⟩ := h5 p hp
          refine ⟨(if e.1 == dedupKey pr.1 then (e.1, (⟨pr.1, pr.2, v⟩ : AggEntry)) else e),
            List.mem_map_of_mem _ he, ?_⟩
          rw [hfst e]
          exact hke
        · have hpv : p = (v, pr) := by simpa using hp
          refine ⟨(if e0.1 == dedupKey pr.1 then (e0.1, (⟨pr.1, pr.2, v⟩ : AggEntry)) else e0),
            List.mem_map_of_mem _ he0, ?_⟩
          rw [hfst e0, he0k, hpv]
    · rw [if_neg hrep]
      refine ⟨h1, h2, ?_, ?_, ?_⟩
      · intro e he
        obtain ⟨p, hp, hps⟩ := h3 e he
        exact ⟨p, List.mem_append_left _ hp, hps⟩
      · intro e he p hp hkey
        rcases List.mem_append.mp hp with hp | hp
        · exact h4 e he p hp hkey
        · have hpv : p = (v, pr) := by simpa using hp
          have hee0 : e = e0 := by
            apply eq_of_mem_nodup_keys h1 he he0
            rw [he0k, ← hkey, hpv]
          have hrep2 : replaceCond pr.2 stored.score = false := by
            simpa using hrep
          rw [hee0, he0v]
          rw [hpv]
          exact skey_le_of_replaceCond_false hrep2
      · intro p hp
        rcases List.mem_append.mp hp with hp | hp
        · exact h5 p hp
        · have hpv : p = (v, pr) := by simpa using hp
          rw [hpv]
          exact ⟨e0, he0, he0k⟩

theorem agg_fold_inv :
    ∀ (pairs processed : List (PyStr × (RDoc × Option ℚ))) (agg : List (PyStr × AggEntry)),
      AggInv processed agg →
      AggInv (processed ++ pairs) (pairs.foldl (fun a p => aggInsert a p.1 p.2) agg) := by
  intro pairs
  induction pairs with
  | nil =>
    intro processed agg h
    simpa using h
  | cons p ps ih =>
    intro processed agg h
    rw [List.foldl_cons]
    have h1 := aggInsert_inv processed agg p.1 p.2 h
    have h2 := ih (processed ++ [(p.1, p.2)]) (aggInsert agg p.1 p.2) h1
    simpa using h2

theorem aggregateAll_inv (pairs : List (PyStr × (RDoc × Option ℚ))) :
    AggInv pairs (aggregateAll pairs) := by
  have h := agg_fold_inv pairs [] []
    ⟨List.nodup_nil, fun e he => absurd he (List.not_mem_nil e),
     fun e he => absurd he (List.not_mem_nil e),
     fun e he => absurd he (List.not_mem_nil e),
     fun p hp => absurd hp (List.not_mem_nil p)⟩
  simpa [aggregateAll] using h

theorem scoreLe_iff (a b : Option ℚ) : scoreLe a b = true ↔ skey a ≤ skey b := by
  cases a with
  | none =>
    cases b with
    | none => simp [scoreLe, skey]
    | some y => simp [scoreLe, skey]
  | some x =>
    cases b with
    | none => simp [scoreLe, skey]
    | some y => simp [scoreLe, skey]

/-- C8: `search_activepieces_docs` returns at most `max_results` snippets
(default 8), ordered by ascending score with score-less results last,
deduplicated by snippet key so each snippet appears once, each returned
entry being one of the retrieved `(doc, score, variant)` tuples whose
retained score is minimal among all retrieved pairs sharing its
deduplication key. -/
theorem search_docs_spec (query : PyStr) (searchFn : PyStr → List (RDoc × Option ℚ))
    (maxResults : Nat) (res : List AggEntry)
    (hres : searchActivepiecesDocs query searchFn maxResults = some res) :
    res.length ≤ maxResults ∧
    res.Pairwise (fun a b => skey a.score ≤ skey b.score) ∧
    (res.map (fun e => dedupKey e.doc)).Nodup ∧
    (∀ e ∈ res,
      (∃ p ∈ docSearchPairs (generateQueryVariants (normalizeQuery query)) searchFn,
         e.doc = p.2.1 ∧ e.score = p.2.2 ∧ e.variant = p.1) ∧
      (∀ p ∈ docSearchPairs (generateQueryVariants (normalizeQuery query)) searchFn,
         dedupKey p.2.1 = dedupKey e.doc → skey e.score ≤ skey p.2.2)) := by
  rw [searchActivepiecesDocs] at hres
  by_cases hq : normalizeQuery query = []
  · rw [if_pos hq] at hres
    simp at hres
  · rw [if_neg hq] at hres
    have hres2 : res = ((sortS (fun a b => scoreLe a.score b.score)
        ((aggregateAll (docSearchPairs (generateQueryVariants (normalizeQuery query))
          searchFn)).map (fun e => e.2))).take maxResults) := by
      have := hres
      simp only [Option.some.injEq] at this
      exact this.symm
    obtain ⟨h1, h2, h3, h4, h5⟩ :=
      aggregateAll_inv (docSearchPairs (generateQueryVariants (normalizeQuery query)) searchFn)
    have hperm := sortS_perm (fun a b => scoreLe a.score b.score)
      ((aggregateAll (docSearchPairs (generateQueryVariants (normalizeQuery query))
        searchFn)).map (fun e => e.2))
    refine ⟨?_, ?_, ?_, ?_⟩
    · rw [hres2]
      exact List.length_take_le _ _
    · have hpw := @pairwise_sortS _
        (fun a b => scoreLe a.score b.score)
        (fun a b => by
          rcases le_total (skey a.score) (skey b.score) with h | h
          · exact Or.inl ((scoreLe_iff _ _).mpr h)
          · exact Or.inr ((scoreLe_iff _ _).mpr h))
        (fun a b c hab hbc => by
          simp only at hab hbc ⊢
          exact (scoreLe_iff _ _).mpr
            (le_trans ((scoreLe_iff _ _).mp hab) ((scoreLe_iff _ _).mp hbc)))
        ((aggregateAll (docSearchPairs (generateQueryVariants (normalizeQuery query))
          searchFn)).map (fun e => e.2))
      rw [hres2]
      exact (hpw.imp (fun hx => (scoreLe_iff _ _).mp hx)).sublist (List.take_sublist _ _)
    · have hkeysagg : ((aggregateAll (docSearchPairs
          (generateQueryVariants (normalizeQuery query)) searchFn)).map
            (fun e => dedupKey e.2.doc)).Nodup := by
        have heq : (aggregateAll (docSearchPairs
            (generateQueryVariants (normalizeQuery query)) searchFn)).map
              (fun e => dedupKey e.2.doc)
            = (aggregateAll (docSearchPairs
                (generateQueryVariants (normalizeQuery query)) searchFn)).map
                  (fun e => e.1) := by
          apply List.map_congr_left
          intro e he
          exact (h2 e he).symm
        rw [heq]
        exact h1
      have hvalsmap : ((aggregateAll (docSearchPairs
          (generateQueryVariants (normalizeQuery query)) searchFn)).map (fun e => e.2)).map
            (fun v => dedupKey v.doc)
          = (aggregateAll (docSearchPairs
              (generateQueryVariants (normalizeQuery query)) searchFn)).map
                (fun e => dedupKey e.2.doc) := by
        rw [List.map_map]
        rfl
      have hsortedmap := (hperm.map (fun v => dedupKey v.doc)).nodup_iff.mpr
        (by rw [hvalsmap]; exact hkeysagg)
      rw [hres2, List.map_take]
      exact hsortedmap.sublist (List.take_sublist _ _)
    · intro e he
      rw [hres2] at he
      have hes : e ∈ sortS (fun a b => scoreLe a.score b.score)
          ((aggregateAll (docSearchPairs (generateQueryVariants (normalizeQuery query))
            searchFn)).map (fun e => e.2)) :=
        (List.take_sublist _ _).subset he
      have hev : e ∈ (aggregateAll (docSearchPairs
          (generateQueryVariants (normalizeQuery query)) searchFn)).map (fun e => e.2) :=
        hperm.subset hes
      rcases List.mem_map.mp hev with ⟨entry, hentry, rfl⟩
      constructor
      · exact h3 entry hentry
      · intro p hp hkey
        apply h4 entry hentry p hp
        rw [hkey]
        exact (h2 entry hentry).symm

/-- C8 witness: a concrete query whose four generated variants each
retrieve the same document once; the result is a single deduplicated
entry carrying the retrieved text and score. -/
theorem search_docs_spec_witness :
    searchActivepiecesDocs "gmail".data
        (fun _ => [(⟨"s", "doc content".data⟩, some (3 : ℚ))]) 8
      = some [{ doc := ⟨"s", "doc content".data⟩, score := some (3 : ℚ),
                variant := "gmail".data }] ∧
    (([{ doc := ⟨"s", "doc content".data⟩, score := some (3 : ℚ),
         variant := "gmail".data }] : List AggEntry).length ≤ 8 ∧
     ([{ doc := ⟨"s", "doc content".data⟩, score := some (3 : ℚ),
         variant := "gmail".data }] : List AggEntry).Pairwise
        (fun a b => skey a.score ≤ skey b.score) ∧
     (([{ doc := ⟨"s", "doc content".data⟩, score := some (3 : ℚ),
          variant := "gmail".data }] : List AggEntry).map (fun e => dedupKey e.doc)).Nodup ∧
     (∀ e ∈ ([{ doc := ⟨"s", "doc content".data⟩, score := some (3 : ℚ),
                variant := "gmail".data }] : List AggEntry),
       (∃ p ∈ docSearchPairs (generateQueryVariants (normalizeQuery "gmail".data))
           (fun _ => [(⟨"s", "doc content".data⟩, some (3 : ℚ))]),
         e.doc = p.2.1 ∧ e.score = p.2.2 ∧ e.variant = p.1) ∧
       (∀ p ∈ docSearchPairs (generateQueryVariants (normalizeQuery "gmail".data))
           (fun _ => [(⟨"s", "doc content".data⟩, some (3 : ℚ))]),
         dedupKey p.2.1 = dedupKey e.doc → skey e.score ≤ skey p.2.2))) :=
  ⟨by decide,
   search_docs_spec "gmail".data (fun _ => [(⟨"s", "doc content".data⟩, some (3 : ℚ))]) 8
     [{ doc := ⟨"s", "doc content".data⟩, score := some (3 : ℚ), variant := "gmail".data }]
     (by decide)⟩
